import Mathlib

/-!
# A model of `internal/ws/handler.go`

The Go package `ws` is embedded function by function.  Go strings and byte
slices are lists of byte values, runes are natural numbers, `float64` is an
exact model of IEEE-754 binary64, and the process-wide `uint64` message
counter is a natural number reduced modulo `2 ^ 64`.

What the handler takes from the Go standard library is modelled as follows.
`strings.Contains`, `strings.HasPrefix`, `strings.TrimPrefix`, the UTF-8
decoder and encoder, `strings.EqualFold`, `strings.ToUpper` and the formatting
verbs are written out.  The Unicode case tables above ASCII, the JSON decoder
and the JSON renderings of a number and of a string are parameters: every
general theorem holds for all of them.  The outcomes of the calls on the
connection, `ReadMessage` and `WriteMessage`, and of the handshake of
`upgrader.Upgrade` are inputs of the session model.
-/

namespace Ws

/-! ## Bytes and UTF-8 -/

/-- A Go `string` or `[]byte`: the sequence of its byte values. -/
abbrev Bytes := List Nat

/-- Go `utf8.RuneError`, the replacement character U+FFFD. -/
def RuneError : Nat := 0xFFFD

/-- Go `utf8.MaxRune`. -/
def MaxRune : Nat := 0x10FFFF

/-- Go `utf8.RuneSelf`: bytes below it are single-byte runes. -/
def RuneSelf : Nat := 0x80

/-- A UTF-8 continuation byte, `0x80 .. 0xBF`. -/
def isCont (b : Nat) : Bool := 0x80 ≤ b && b ≤ 0xBF

/-- Go `utf8.DecodeRuneInString`: the first rune of `s` and its width in bytes.
An empty input gives `(RuneError, 0)`, an invalid or truncated encoding gives
`(RuneError, 1)`. -/
def decodeRune : Bytes → Nat × Nat
  | [] => (RuneError, 0)
  | s0 :: rest =>
    if s0 < 0x80 then (s0, 1)
    else if s0 < 0xC2 then (RuneError, 1)
    else if s0 < 0xE0 then
      match rest with
      | s1 :: _ =>
        if isCont s1 then ((s0 % 32) * 64 + s1 % 64, 2) else (RuneError, 1)
      | _ => (RuneError, 1)
    else if s0 < 0xF0 then
      match rest with
      | s1 :: s2 :: _ =>
        let lo := if s0 = 0xE0 then 0xA0 else 0x80
        let hi := if s0 = 0xED then 0x9F else 0xBF
        if lo ≤ s1 && s1 ≤ hi && isCont s2 then
          (((s0 % 16) * 64 + s1 % 64) * 64 + s2 % 64, 3)
        else (RuneError, 1)
      | _ => (RuneError, 1)
    else if s0 < 0xF5 then
      match rest with
      | s1 :: s2 :: s3 :: _ =>
        let lo := if s0 = 0xF0 then 0x90 else 0x80
        let hi := if s0 = 0xF4 then 0x8F else 0xBF
        if lo ≤ s1 && s1 ≤ hi && isCont s2 && isCont s3 then
          ((((s0 % 8) * 64 + s1 % 64) * 64 + s2 % 64) * 64 + s3 % 64, 4)
        else (RuneError, 1)
      | _ => (RuneError, 1)
    else (RuneError, 1)

/-- Go `utf8.AppendRune`: the UTF-8 encoding of a rune; surrogates and values
above `MaxRune` are encoded as `RuneError`. -/
def encodeRune (r : Nat) : Bytes :=
  if r < 0x80 then [r]
  else if r < 0x800 then [0xC0 + r / 64, 0x80 + r % 64]
  else if MaxRune < r || (0xD800 ≤ r && r ≤ 0xDFFF) then [0xEF, 0xBF, 0xBD]
  else if r < 0x10000 then [0xE0 + r / 4096, 0x80 + r / 64 % 64, 0x80 + r % 64]
  else [0xF0 + r / 262144, 0x80 + r / 4096 % 64, 0x80 + r / 64 % 64, 0x80 + r % 64]

/-- The runes of `s` in order, decoding at most `fuel` of them. -/
def toRunesAux : Nat → Bytes → List Nat
  | 0, _ => []
  | fuel + 1, s =>
    match s with
    | [] => []
    | _ :: _ => (decodeRune s).1 :: toRunesAux fuel (s.drop (decodeRune s).2)

/-- Go `[]rune(s)`, also the runes a `for range s` loop visits: every byte
that starts no valid encoding yields one `RuneError`. -/
def toRunes (s : Bytes) : List Nat := toRunesAux s.length s

/-- Go `string(runes)`. -/
def ofRunes (runes : List Nat) : Bytes := runes.flatMap encodeRune

/-- The bytes of a string literal of the source. -/
def goStr (s : String) : Bytes := ofRunes (s.toList.map Char.toNat)

/-- Go `utf8.ValidRune`: a code point up to `MaxRune` that is no surrogate. -/
def validRune (r : Nat) : Bool := r < 0xD800 || (0xE000 ≤ r && r ≤ MaxRune)

/-- Go `utf8.ValidString` with fuel: no position of `s` decodes to the error
pair `(RuneError, 1)`. -/
def validStringAux : Nat → Bytes → Bool
  | 0, s => s.isEmpty
  | fuel + 1, s =>
    match s with
    | [] => true
    | _ :: _ =>
      decodeRune s != (RuneError, 1) && validStringAux fuel (s.drop (decodeRune s).2)

/-- Go `utf8.ValidString(s)`: `s` consists entirely of valid UTF-8 encodings. -/
def validString (s : Bytes) : Bool := validStringAux s.length s

/-! ## `strings` -/

/-- Go `strings.HasPrefix(s, p)`. -/
def hasPrefix (s p : Bytes) : Bool := p.isPrefixOf s

/-- Go `strings.TrimPrefix(s, p)`. -/
def trimPrefix (s p : Bytes) : Bytes := if hasPrefix s p then s.drop p.length else s

/-- Go `strings.Contains(s, sub)`: `sub` occurs in `s` as a run of bytes. -/
def contains : Bytes → Bytes → Bool
  | [], sub => hasPrefix [] sub
  | c :: cs, sub => hasPrefix (c :: cs) sub || contains cs sub

/-- The Unicode case tables of the Go `unicode` package above ASCII. -/
structure Unicode where
  /-- The value of `unicode.SimpleFold` at a rune above ASCII. -/
  simpleFold : Nat → Nat
  /-- The value of `unicode.ToUpper` at a rune above ASCII. -/
  toUpper : Nat → Nat

/-- Go `unicode.SimpleFold`: on ASCII the table `asciiFold`, in which the
letters swap case except that `k` goes to the Kelvin sign U+212A and `s` to
the long s U+017F. -/
def simpleFold (U : Unicode) (r : Nat) : Nat :=
  if r < 0x80 then
    if 0x41 ≤ r && r ≤ 0x5A then r + 32
    else if r = 0x6B then 0x212A
    else if r = 0x73 then 0x17F
    else if 0x61 ≤ r && r ≤ 0x7A then r - 32
    else r
  else U.simpleFold r

/-- Go `unicode.ToUpper`. -/
def toUpperRune (U : Unicode) (r : Nat) : Nat :=
  if r < 0x80 then (if 0x61 ≤ r && r ≤ 0x7A then r - 32 else r) else U.toUpper r

/-- The test of `strings.EqualFold` on two ASCII values: equal, or an upper
case letter and its lower case form. -/
def asciiEqualFold (sr tr : Nat) : Bool :=
  tr == sr ||
    (0x41 ≤ min sr tr && min sr tr ≤ 0x5A && max sr tr == min sr tr + 32)

/-- The lower case form of an ASCII letter; other values are unchanged. -/
def asciiLower (c : Nat) : Nat := if 0x41 ≤ c && c ≤ 0x5A then c + 32 else c

/-- The loop `for r != sr && r < tr { r = unicode.SimpleFold(r) }` of
`strings.EqualFold`, run for at most `fuel` steps. -/
def foldWalk (U : Unicode) (sr tr : Nat) : Nat → Nat → Nat
  | 0, r => r
  | fuel + 1, r => if r != sr && r < tr then foldWalk U sr tr fuel (simpleFold U r) else r

/-- The rune comparison of `strings.EqualFold` in its Unicode part. -/
def runeEqualFold (U : Unicode) (sr tr : Nat) : Bool :=
  if tr = sr then true
  else if max sr tr < RuneSelf then asciiEqualFold sr tr
  else foldWalk U (min sr tr) (max sr tr) (MaxRune + 1) (simpleFold U (min sr tr))
    == max sr tr

/-- The part of `strings.EqualFold` after the label `hasUnicode`: `s` is
walked rune by rune against the runes of `t`. -/
def equalFoldUnicode (U : Unicode) : Nat → Bytes → Bytes → Bool
  | 0, s, t => s.isEmpty && t.isEmpty
  | fuel + 1, s, t =>
    match s with
    | [] => t.isEmpty
    | _ :: _ =>
      match t with
      | [] => false
      | _ :: _ =>
        if runeEqualFold U (decodeRune s).1 (decodeRune t).1 then
          equalFoldUnicode U fuel (s.drop (decodeRune s).2) (t.drop (decodeRune t).2)
        else false

/-- Go `strings.EqualFold(s, t)`: the byte-wise ASCII loop, left for the
rune-wise loop at the first byte that is not ASCII. -/
def equalFold (U : Unicode) : Bytes → Bytes → Bool
  | [], [] => true
  | [], _ :: _ => false
  | _ :: _, [] => false
  | sr :: s, tr :: t =>
    if RuneSelf ≤ sr || RuneSelf ≤ tr then
      equalFoldUnicode U (s.length + 1) (sr :: s) (tr :: t)
    else if asciiEqualFold sr tr then equalFold U s t
    else false

/-- Go `strings.ToUpper`: the ASCII loop when every byte is ASCII, and
otherwise `strings.Map(unicode.ToUpper, s)`, which writes the upper case form
of every rune of `s`. -/
def toUpper (U : Unicode) (s : Bytes) : Bytes :=
  if s.all (fun c => c < RuneSelf) then
    s.map (fun c => if 0x61 ≤ c && c ≤ 0x7A then c - 32 else c)
  else ofRunes ((toRunes s).map (toUpperRune U))

/-! ## Origin validation -/

/-- The variable `allowedOrigins`. -/
def allowedOrigins : List Bytes :=
  [goStr "http://localhost:4000", goStr "http://localhost:8080",
   goStr "http://127.0.0.1:4000", goStr "http://127.0.0.1:8080"]

/-- The function `originAllowed`. -/
def originAllowed (U : Unicode) (o : Bytes) : Bool :=
  if o = [] then false
  else if contains o (goStr "localhost") || contains o (goStr "127.0.0.1") then true
  else allowedOrigins.any (fun a => equalFold U o a)

/-! ## `float64` -/

/-- The Go type `float64`, IEEE-754 binary64: a finite value is
`(-1) ^ neg * m * 2 ^ e`. -/
inductive F64 where
  | nan : F64
  | inf (neg : Bool) : F64
  | fin (neg : Bool) (m : Nat) (e : Int) : F64
deriving DecidableEq, Repr

namespace F64

/-- The number of binary digits of `n`, found in at most `fuel` halvings. -/
def bitLenAux : Nat → Nat → Nat
  | 0, _ => 0
  | fuel + 1, n => if n = 0 then 0 else 1 + bitLenAux fuel (n / 2)

/-- The number of binary digits of `n`, 0 for 0. -/
def bitLen (n : Nat) : Nat := bitLenAux n n

/-- The zero of the given sign. -/
def zero (neg : Bool) : F64 := .fin neg 0 (-1074)

/-- The binary64 value nearest to the rational `n / d` (for `d > 0`), ties to
even, with the sign `neg`: the rounding every arithmetic operation ends with.
Too large a value gives an infinity, too small a one a subnormal or a zero. -/
def ofRat (neg : Bool) (n d : Nat) : F64 :=
  if n = 0 then zero neg else
  let k0 : Int := (bitLen n : Int) - (bitLen d : Int)
  let k : Int := if d * 2 ^ k0.toNat ≤ n * 2 ^ (-k0).toNat then k0 else k0 - 1
  let e : Int := max (k - 52) (-1074)
  let num := n * 2 ^ (-e).toNat
  let den := d * 2 ^ e.toNat
  let q := num / den
  let r := num % den
  let q1 := if den < 2 * r ∨ (2 * r = den ∧ q % 2 = 1) then q + 1 else q
  let m := if q1 = 2 ^ 53 then 2 ^ 52 else q1
  let e1 := if q1 = 2 ^ 53 then e + 1 else e
  if 971 < e1 then .inf neg else .fin neg m e1

/-- The binary64 value nearest to a natural number. -/
def ofNat (n : Nat) : F64 := ofRat false n 1

/-- Go `math.MaxFloat64`, the largest finite value. -/
def maxFloat64 : F64 := .fin false (2 ^ 53 - 1) 971

/-- Go `-x`. -/
def neg : F64 → F64
  | .nan => .nan
  | .inf s => .inf (!s)
  | .fin s m e => .fin (!s) m e

/-- Go `x + y`. -/
def add : F64 → F64 → F64
  | .nan, _ => .nan
  | _, .nan => .nan
  | .inf s, .inf t => if s = t then .inf s else .nan
  | .inf s, .fin _ _ _ => .inf s
  | .fin _ _ _, .inf t => .inf t
  | .fin s1 m1 e1, .fin s2 m2 e2 =>
    let e := min e1 e2
    let a : Int :=
      if s1 then -((m1 * 2 ^ (e1 - e).toNat : Nat) : Int) else (m1 * 2 ^ (e1 - e).toNat : Nat)
    let b : Int :=
      if s2 then -((m2 * 2 ^ (e2 - e).toNat : Nat) : Int) else (m2 * 2 ^ (e2 - e).toNat : Nat)
    if a + b = 0 then zero (s1 && s2)
    else ofRat (decide (a + b < 0)) ((a + b).natAbs * 2 ^ e.toNat) (2 ^ (-e).toNat)

/-- Go `x - y`. -/
def sub (x y : F64) : F64 := add x (neg y)

/-- Go `x * y`. -/
def mul : F64 → F64 → F64
  | .nan, _ => .nan
  | _, .nan => .nan
  | .inf s, .inf t => .inf (xor s t)
  | .inf s, .fin t m _ => if m = 0 then .nan else .inf (xor s t)
  | .fin s m _, .inf t => if m = 0 then .nan else .inf (xor s t)
  | .fin s1 m1 e1, .fin s2 m2 e2 =>
    ofRat (xor s1 s2) (m1 * m2 * 2 ^ (e1 + e2).toNat) (2 ^ (-(e1 + e2)).toNat)

/-- Go `x / y`. -/
def div : F64 → F64 → F64
  | .nan, _ => .nan
  | _, .nan => .nan
  | .inf _, .inf _ => .nan
  | .inf s, .fin t _ _ => .inf (xor s t)
  | .fin s _ _, .inf t => zero (xor s t)
  | .fin s1 m1 e1, .fin s2 m2 e2 =>
    if m2 = 0 then (if m1 = 0 then .nan else .inf (xor s1 s2))
    else ofRat (xor s1 s2) (m1 * 2 ^ (e1 - e2).toNat) (m2 * 2 ^ (e2 - e1).toNat)

/-- Go `x == 0`: true of both zeros, false of NaN. -/
def isZero : F64 → Bool
  | .fin _ m _ => m == 0
  | _ => false

/-- Neither NaN nor an infinity. -/
def isFinite : F64 → Bool
  | .fin _ _ _ => true
  | _ => false

end F64

/-! ## Commands -/

/-- The struct `CommandRequest`. -/
structure CommandRequest where
  Command : Bytes
  A : F64
  B : F64
deriving DecidableEq, Repr

/-- The struct `CommandResponse`; a fresh one has `Result` +0 and empty
`Command` and `Error`. -/
structure CommandResponse where
  Result : F64
  Command : Bytes
  Error : Bytes
deriving DecidableEq, Repr

/-- What `processCommand` takes from `encoding/json`.  Errors are carried as
their message, the text `%v` prints. -/
structure JSON where
  /-- The outcome of `json.Unmarshal(payload, &req)` on a fresh `req`: the
  request, or the message of the error. -/
  unmarshal : Bytes → Except Bytes CommandRequest
  /-- The JSON number `json.Marshal` writes for a finite `float64`. -/
  encodeFloat : F64 → Bytes
  /-- The JSON string, quoted and escaped, `json.Marshal` writes for a string. -/
  encodeString : Bytes → Bytes

/-- Lines 94 to 112 of `processCommand`: the response built for a parsed
request. -/
def commandResponse (req : CommandRequest) : CommandResponse :=
  let resp : CommandResponse := { Result := F64.zero false, Command := req.Command, Error := [] }
  if req.Command = goStr "add" then { resp with Result := F64.add req.A req.B }
  else if req.Command = goStr "subtract" then { resp with Result := F64.sub req.A req.B }
  else if req.Command = goStr "multiply" then { resp with Result := F64.mul req.A req.B }
  else if req.Command = goStr "divide" then
    if req.B.isZero then { resp with Error := goStr "division by zero" }
    else { resp with Result := F64.div req.A req.B }
  else { resp with Error := goStr "unknown command: " ++ req.Command }

/-- The text `json.Marshal` writes for a `CommandResponse` with a finite
result: the fields in order under their tags, `error` left out when empty
(`omitempty`). -/
def encodeResponse (J : JSON) (resp : CommandResponse) : Bytes :=
  goStr "\x7b\"result\":" ++ J.encodeFloat resp.Result ++
    goStr ",\"command\":" ++ J.encodeString resp.Command ++
    (if resp.Error = [] then [] else goStr ",\"error\":" ++ J.encodeString resp.Error) ++
    goStr "\x7d"

/-- Go `strconv.FormatFloat(f, 103, -1, 64)`, the `g` format, for a value that
is not finite. -/
def formatNonFinite : F64 → Bytes
  | .nan => goStr "NaN"
  | .inf false => goStr "+Inf"
  | .inf true => goStr "-Inf"
  | .fin _ _ _ => []

/-- Go `json.Marshal(resp)`: a `float64` that is NaN or infinite makes it fail
with an `UnsupportedValueError`. -/
def jsonMarshal (J : JSON) (resp : CommandResponse) : Except Bytes Bytes :=
  if resp.Result.isFinite then .ok (encodeResponse J resp)
  else .error (goStr "json: unsupported value: " ++ formatNonFinite resp.Result)

/-- The function `processCommand`. -/
def processCommand (J : JSON) (payload : Bytes) : Except Bytes Bytes :=
  match J.unmarshal payload with
  | .error err => .error (goStr "invalid JSON: " ++ err)
  | .ok req => jsonMarshal J (commandResponse req)

/-! ## Text messages -/

/-- The loop of `reverseString`, which swaps `runes[i]` and `runes[j]` while
`i < j`, run for at most `fuel` rounds. -/
def reverseLoop : Nat → List Nat → Nat → Nat → List Nat
  | 0, runes, _, _ => runes
  | fuel + 1, runes, i, j =>
    if i < j then
      reverseLoop fuel ((runes.set i (runes.getD j 0)).set j (runes.getD i 0)) (i + 1) (j - 1)
    else runes

/-- The function `reverseString`.  On an empty slice `j` starts at -1 in Go
and at 0 here; the loop does not run in either case. -/
def reverseString (s : Bytes) : Bytes :=
  ofRunes (reverseLoop (toRunes s).length (toRunes s) 0 ((toRunes s).length - 1))

/-- The verb `%d` on an unsigned integer: its decimal digits. -/
def decimal (n : Nat) : Bytes := (Nat.toDigits 10 n).map Char.toNat

/-- Go `atomic.AddUint64(addr, delta)` on a counter holding `c`: the new value,
which is also the value returned. -/
def addUint64 (c delta : Nat) : Nat := (c + delta) % 2 ^ 64

/-- Lines 146 to 177 of `HandleWebSocket`: the response to a text message and
the message counter after it, from the counter before it.  Logging is left
out. -/
def dispatchText (U : Unicode) (J : JSON) (counter : Nat) (payload : Bytes) : Bytes × Nat :=
  if 0 < payload.length ∧ payload.head? = some 0x7B then
    match processCommand J payload with
    | .error err => (goStr "\x7b\"error\": \"" ++ err ++ goStr "\"\x7d", counter)
    | .ok jsonResponse => (jsonResponse, counter)
  else
    let response := payload
    let response :=
      if hasPrefix payload (goStr "UPPER:") then toUpper U (trimPrefix payload (goStr "UPPER:"))
      else response
    let response :=
      if hasPrefix payload (goStr "REVERSE:") then
        reverseString (trimPrefix payload (goStr "REVERSE:"))
      else response
    if 0 < payload.length ∧ payload.head? ≠ some 0x7B then
      (goStr "[Msg #" ++ decimal (addUint64 counter 1) ++ goStr "] " ++ response,
        addUint64 counter 1)
    else (response, counter)

/-- Lines 173 and 174 of `HandleWebSocket`: the value `count` that a text
message obtains from `atomic.AddUint64`, when it reaches that call. -/
def observedCount (counter : Nat) (payload : Bytes) : Option Nat :=
  if 0 < payload.length ∧ payload.head? = some 0x7B then none
  else if 0 < payload.length ∧ payload.head? ≠ some 0x7B then some (addUint64 counter 1)
  else none

/-! ## The session -/

/-- The constant `websocket.TextMessage`. -/
def TextMessage : Nat := 1

/-- The constant `websocket.BinaryMessage`. -/
def BinaryMessage : Nat := 2

/-- The outcome of one call of `conn.ReadMessage`: an error, or a message with
its type and payload. -/
inductive ReadResult where
  | error : ReadResult
  | message (msgType : Nat) (payload : Bytes) : ReadResult
deriving DecidableEq, Repr

/-- What one round of the loop of `HandleWebSocket` does: the response it hands
to `conn.WriteMessage`, if it reaches that call, the message counter after the
round, and whether the loop goes on to the next `ReadMessage` or the handler
returns, which closes the connection. -/
structure Round where
  written : Option Bytes
  counter : Nat
  continues : Bool
deriving DecidableEq, Repr

/-- Lines 134 to 184 of `HandleWebSocket`, one round of the loop, from the
counter before it, the outcome of `ReadMessage` and, used only when a response
is written, whether `WriteMessage` succeeds.  Deadlines and logging are left
out. -/
def loopRound (U : Unicode) (J : JSON) (counter : Nat) (read : ReadResult) (writeOk : Bool) :
    Round :=
  match read with
  | .error => ⟨none, counter, false⟩
  | .message msgType payload =>
    if msgType = TextMessage then
      ⟨some (dispatchText U J counter payload).1, (dispatchText U J counter payload).2, writeOk⟩
    else ⟨none, counter, true⟩

/-- The loop of `HandleWebSocket` over the outcomes of its successive reads and
writes: the responses handed to `WriteMessage` in order, the counter at the
end, and whether the handler has returned.  When the outcomes are used up the
loop is waiting in `ReadMessage`. -/
def readLoop (U : Unicode) (J : JSON) : Nat → List (ReadResult × Bool) → List Bytes × Nat × Bool
  | counter, [] => ([], counter, false)
  | counter, (read, writeOk) :: rest =>
    if (loopRound U J counter read writeOk).continues then
      ((loopRound U J counter read writeOk).written.toList ++
          (readLoop U J (loopRound U J counter read writeOk).counter rest).1,
        (readLoop U J (loopRound U J counter read writeOk).counter rest).2)
    else
      ((loopRound U J counter read writeOk).written.toList,
        (loopRound U J counter read writeOk).counter, true)

/-- What a call of `HandleWebSocket` comes to: the handler answers itself with
`http.Error` and returns; or it calls `upgrader.Upgrade`, which fails after
answering the request itself; or the connection is upgraded and the loop
runs. -/
inductive Outcome where
  | httpError (body : Bytes) (status : Nat) : Outcome
  | upgradeFailed : Outcome
  | session (responses : List Bytes) (closed : Bool) : Outcome
deriving DecidableEq, Repr

/-- Go `http.StatusMethodNotAllowed`. -/
def StatusMethodNotAllowed : Nat := 405

/-- The function `HandleWebSocket`, from the message counter before the call,
the method and `Origin` header of the request, whether the checks of
`upgrader.Upgrade` other than `CheckOrigin` pass, and the outcomes of the
reads and writes on the connection: what the call comes to and the counter
after it.  `CheckOrigin` is `originAllowed` on the `Origin` header, and
`http.Error` writes its message followed by a line feed. -/
def HandleWebSocket (U : Unicode) (J : JSON) (counter : Nat) (method origin : Bytes)
    (handshakeOk : Bool) (io : List (ReadResult × Bool)) : Outcome × Nat :=
  if method ≠ goStr "GET" then
    (.httpError (goStr "method not allowed\n") StatusMethodNotAllowed, counter)
  else if handshakeOk && originAllowed U origin then
    (.session (readLoop U J counter io).1 (readLoop U J counter io).2.2,
      (readLoop U J counter io).2.1)
  else (.upgradeFailed, counter)

/-- The values `count` obtained in order by the messages of a sequence, each
given with its type, that the loop processes one after the other from the
given counter. -/
def observedCounts (U : Unicode) (J : JSON) : Nat → List (Nat × Bytes) → List Nat
  | _, [] => []
  | counter, (msgType, payload) :: rest =>
    if msgType = TextMessage then
      (observedCount counter payload).toList ++
        observedCounts U J (dispatchText U J counter payload).2 rest
    else observedCounts U J counter rest

/-! ## Reading an error object -/

/-- The value of a hexadecimal digit. -/
def hexDigit (c : Nat) : Option Nat :=
  if 0x30 ≤ c ∧ c ≤ 0x39 then some (c - 0x30)
  else if 0x41 ≤ c ∧ c ≤ 0x46 then some (c - 0x41 + 10)
  else if 0x61 ≤ c ∧ c ≤ 0x66 then some (c - 0x61 + 10)
  else none

/-- The number written by four hexadecimal digits at the head of the input,
and the input after them. -/
def hex4 : Bytes → Option (Nat × Bytes)
  | a :: b :: c :: d :: rest =>
    match hexDigit a, hexDigit b, hexDigit c, hexDigit d with
    | some x, some y, some z, some w => some (((x * 16 + y) * 16 + z) * 16 + w, rest)
    | _, _, _, _ => none
  | _ => none

/-- The character a one-letter escape of a JSON string stands for. -/
def simpleEscape (c : Nat) : Option Nat :=
  if c = 0x22 then some 0x22
  else if c = 0x5C then some 0x5C
  else if c = 0x2F then some 0x2F
  else if c = 0x62 then some 0x08
  else if c = 0x66 then some 0x0C
  else if c = 0x6E then some 0x0A
  else if c = 0x72 then some 0x0D
  else if c = 0x74 then some 0x09
  else none

/-- A JSON string of RFC 8259 read from just after its opening quote: the text
it denotes and the input after its closing quote, or nothing when the input is
no string.  A quote or backslash must be escaped and a control character may
not occur; a `\u` escape of a surrogate pair denotes one code point, a lone
surrogate the replacement character. -/
def readStringBody : Nat → Bytes → Option (Bytes × Bytes)
  | 0, _ => none
  | _ + 1, [] => none
  | fuel + 1, c :: rest =>
    if c = 0x22 then some ([], rest)
    else if c = 0x5C then
      match rest with
      | [] => none
      | e :: rest1 =>
        if e = 0x75 then
          match hex4 rest1 with
          | none => none
          | some (u, rest2) =>
            if 0xD800 ≤ u ∧ u < 0xDC00 then
              match rest2 with
              | 0x5C :: 0x75 :: rest3 =>
                match hex4 rest3 with
                | some (v, rest4) =>
                  if 0xDC00 ≤ v ∧ v < 0xE000 then
                    (readStringBody fuel rest4).map (fun p =>
                      (encodeRune (0x10000 + (u - 0xD800) * 0x400 + (v - 0xDC00)) ++ p.1, p.2))
                  else (readStringBody fuel rest2).map (fun p => (encodeRune RuneError ++ p.1, p.2))
                | none => none
              | _ => (readStringBody fuel rest2).map (fun p => (encodeRune RuneError ++ p.1, p.2))
            else (readStringBody fuel rest2).map (fun p => (encodeRune u ++ p.1, p.2))
        else
          match simpleEscape e with
          | none => none
          | some ch => (readStringBody fuel rest1).map (fun p => (ch :: p.1, p.2))
    else if c < 0x20 then none
    else (readStringBody fuel rest).map (fun p => (c :: p.1, p.2))

/-- The input after its leading JSON white space. -/
def skipSpace : Bytes → Bytes
  | [] => []
  | c :: rest =>
    if c = 0x20 ∨ c = 0x09 ∨ c = 0x0A ∨ c = 0x0D then skipSpace rest else c :: rest

/-- The input after white space and the character `c`, when that is what it
starts with. -/
def expect (c : Nat) (s : Bytes) : Option Bytes :=
  match skipSpace s with
  | [] => none
  | d :: rest => if d = c then some rest else none

/-- A JSON string after white space: the text it denotes and the input after
it. -/
def readString (s : Bytes) : Option (Bytes × Bytes) :=
  (expect 0x22 s).bind (fun rest => readStringBody rest.length rest)

/-- The error of a JSON text that is an object with the single member
`"error"` whose value is a string, by the grammar of RFC 8259; nothing for
any other input. -/
def readErrorObject (s : Bytes) : Option Bytes :=
  (expect 0x7B s).bind fun r1 =>
  (readString r1).bind fun key =>
  if key.1 = goStr "error" then
    (expect 0x3A key.2).bind fun r2 =>
    (readString r2).bind fun val =>
    (expect 0x7D val.2).bind fun r3 =>
    if skipSpace r3 = [] then some val.1 else none
  else none

/-! ## Instances for running the model -/

/-- Case tables that leave every rune above ASCII unchanged, except that the
Kelvin sign and the long s fold to `K` and `S` as in Go.  They are used to run
the model on ASCII examples, where the tables above ASCII are never read. -/
def asciiTables : Unicode where
  simpleFold := fun r => if r = 0x212A then 0x4B else if r = 0x17F then 0x53 else r
  toUpper := fun r => r

/-- A JSON library cut down to the examples: `unmarshal` knows the listed
payloads, for which it returns what `json.Unmarshal` returns, a request or the
message of its error, and reports the end of the input on every other; `encodeFloat` writes whole numbers below
`10 ^ 21` as `json.Marshal` does and nothing for other values; `encodeString`
quotes without escaping, which is what `json.Marshal` does on text that needs
no escape. -/
def exampleJSON : JSON where
  unmarshal := fun payload =>
    if payload = goStr "\x7b\"command\":\"add\",\"a\":2,\"b\":3\x7d" then
      .ok ⟨goStr "add", F64.ofNat 2, F64.ofNat 3⟩
    else if payload = goStr "\x7b\"command\":\"divide\",\"a\":1,\"b\":0\x7d" then
      .ok ⟨goStr "divide", F64.ofNat 1, F64.zero false⟩
    else if payload = goStr "\x7b\"command\":\"foo\",\"a\":1,\"b\":1\x7d" then
      .ok ⟨goStr "foo", F64.ofNat 1, F64.ofNat 1⟩
    else if payload = goStr "\x7b\"command\":\"multiply\",\"a\":1e200,\"b\":1e200\x7d" then
      .ok ⟨goStr "multiply", F64.ofRat false (10 ^ 200) 1, F64.ofRat false (10 ^ 200) 1⟩
    else if payload = goStr
        "\x7b\"command\":\"add\",\"a\":1.7976931348623157e308,\"b\":1.7976931348623157e308\x7d" then
      .ok ⟨goStr "add", F64.maxFloat64, F64.maxFloat64⟩
    else if payload = goStr "\x7b\"a\" \"" then
      .error (goStr "invalid character '\"' after object key")
    else .error (goStr "unexpected end of JSON input")
  encodeFloat := fun x =>
    match x with
    | .fin s m e =>
      if m = 0 then (if s then [0x2D] else []) ++ [0x30]
      else if m * 2 ^ e.toNat % 2 ^ (-e).toNat = 0 ∧
          m * 2 ^ e.toNat / 2 ^ (-e).toNat < 10 ^ 21 then
        (if s then [0x2D] else []) ++ decimal (m * 2 ^ e.toNat / 2 ^ (-e).toNat)
      else []
    | _ => []
  encodeString := fun s => [0x22] ++ s ++ [0x22]

/-! ## Theorems -/

/-- The empty string contains a string only when that string is empty. -/
theorem contains_nil (sub : Bytes) : contains [] sub = sub.isEmpty := by
  cases sub <;> rfl

/-- A string contains `sub` exactly when `sub` is an infix of it. -/
theorem contains_iff_isInfix (s sub : Bytes) : contains s sub = true ↔ sub <:+: s := by
  induction s with
  | nil =>
    rw [contains_nil]
    cases sub <;> simp
  | cons c cs ih =>
    simp only [contains, hasPrefix, Bool.or_eq_true, ih, List.isPrefixOf_iff_prefix]
    rw [List.infix_cons_iff]

/-- The ASCII test of `strings.EqualFold` holds of two values exactly when
their lower case forms agree. -/
theorem asciiEqualFold_iff (sr tr : Nat) :
    asciiEqualFold sr tr = true ↔ asciiLower sr = asciiLower tr := by
  simp only [asciiEqualFold, asciiLower, Bool.or_eq_true, Bool.and_eq_true, beq_iff_eq,
    decide_eq_true_eq]
  rcases Nat.le_total sr tr with h | h
  · rw [min_eq_left h, max_eq_right h]
    split <;> split <;> omega
  · rw [min_eq_right h, max_eq_left h]
    split <;> split <;> omega

/-- On ASCII text `strings.EqualFold` is equality of the lower case forms,
whatever the Unicode tables. -/
theorem equalFold_ascii (U : Unicode) (s : Bytes) : ∀ t : Bytes,
    (∀ c ∈ s, c < 0x80) → (∀ c ∈ t, c < 0x80) →
    (equalFold U s t = true ↔ s.map asciiLower = t.map asciiLower) := by
  induction s with
  | nil =>
    intro t _ _
    cases t <;> simp [equalFold]
  | cons sr s ih =>
    intro t hs ht
    cases t with
    | nil => simp [equalFold]
    | cons tr t =>
      have h1 : sr < 0x80 := hs sr (List.mem_cons_self _ _)
      have h2 : tr < 0x80 := ht tr (List.mem_cons_self _ _)
      have hn : ¬ (RuneSelf ≤ sr ∨ RuneSelf ≤ tr) := by
        simp only [RuneSelf]; omega
      have ih' := ih t (fun c hc => hs c (List.mem_cons_of_mem _ hc))
        (fun c hc => ht c (List.mem_cons_of_mem _ hc))
      simp only [equalFold, Bool.or_eq_true, decide_eq_true_eq, if_neg hn, List.map_cons,
        List.cons.injEq]
      by_cases hf : asciiEqualFold sr tr = true
      · rw [if_pos hf, ih']
        simp [(asciiEqualFold_iff sr tr).1 hf]
      · rw [if_neg hf]
        have : asciiLower sr ≠ asciiLower tr := fun h => hf ((asciiEqualFold_iff sr tr).2 h)
        simp [this]

/-- C1: every origin that contains "localhost" or "127.0.0.1" as a run of
bytes is allowed, whatever surrounds it. -/
theorem originAllowed_of_contains (U : Unicode) (o : Bytes)
    (h : contains o (goStr "localhost") = true ∨ contains o (goStr "127.0.0.1") = true) :
    originAllowed U o = true := by
  have hne : o ≠ [] := by
    rintro rfl
    rcases h with h | h <;> exact absurd h (by decide)
  unfold originAllowed
  rw [if_neg hne]
  rcases h with h | h <;> simp [h]

/-- C1 at the origin "http://localhost:9999". -/
theorem originAllowed_of_contains_witness :
    contains (goStr "http://localhost:9999") (goStr "localhost") = true ∧
      originAllowed asciiTables (goStr "http://localhost:9999") = true :=
  ⟨by decide, originAllowed_of_contains asciiTables (goStr "http://localhost:9999")
    (Or.inl (by decide))⟩

/-- C2: a non-empty origin that contains neither "localhost" nor "127.0.0.1"
is allowed exactly when `strings.EqualFold` equates it with an entry of
`allowedOrigins`. -/
theorem originAllowed_iff_equalFold (U : Unicode) (o : Bytes) (hne : o ≠ [])
    (h1 : contains o (goStr "localhost") = false)
    (h2 : contains o (goStr "127.0.0.1") = false) :
    originAllowed U o = true ↔ ∃ a ∈ allowedOrigins, equalFold U o a = true := by
  unfold originAllowed
  rw [if_neg hne]
  simp [h1, h2]

/-- C2 at the origins "HTTP://LOCALHOST:4000", which is allowed, and
"http://example.com", which is not. -/
theorem originAllowed_iff_equalFold_witness :
    (originAllowed asciiTables (goStr "HTTP://LOCALHOST:4000") = true ↔
      ∃ a ∈ allowedOrigins, equalFold asciiTables (goStr "HTTP://LOCALHOST:4000") a = true) ∧
    originAllowed asciiTables (goStr "HTTP://LOCALHOST:4000") = true ∧
    originAllowed asciiTables (goStr "http://example.com") = false :=
  ⟨originAllowed_iff_equalFold asciiTables (goStr "HTTP://LOCALHOST:4000")
    (by decide) (by decide) (by decide), by decide, by decide⟩

/-- C3: the empty origin is rejected. -/
theorem originAllowed_empty (U : Unicode) : originAllowed U [] = false := by
  rfl

/-! ### Checks of the `float64` model -/

/-- In `float64`, 0.1 + 0.2 is 0.30000000000000004, that is
`5404319552844596 * 2 ^ (-54)`. -/
theorem F64.add_tenth_fifth :
    F64.add (F64.ofRat false 1 10) (F64.ofRat false 2 10) =
      .fin false 5404319552844596 (-54) := by decide

set_option maxRecDepth 20000 in
/-- In `float64`, 1 / 3 is `6004799503160661 * 2 ^ (-54)` and 2 ^ 53 + 1 is
2 ^ 53. -/
theorem F64.div_one_three :
    F64.div (F64.ofNat 1) (F64.ofNat 3) = .fin false 6004799503160661 (-54) ∧
      F64.add (F64.ofNat (2 ^ 53)) (F64.ofNat 1) = F64.ofNat (2 ^ 53) := by decide

/-- Both zeros compare equal to 0 and NaN does not. -/
theorem F64.isZero_zero :
    (F64.zero false).isZero = true ∧ (F64.zero true).isZero = true ∧
      F64.nan.isZero = false := by decide

/-! ### `processCommand` -/

/-- On a payload that parses, `processCommand` returns what `json.Marshal`
returns on the response built for the request. -/
theorem processCommand_of_parsed (J : JSON) (payload : Bytes) (req : CommandRequest)
    (h : J.unmarshal payload = .ok req) :
    processCommand J payload = jsonMarshal J (commandResponse req) := by
  simp only [processCommand, h]

/-- A response with a finite result is serialized. -/
theorem jsonMarshal_of_finite (J : JSON) (resp : CommandResponse)
    (h : resp.Result.isFinite = true) : jsonMarshal J resp = .ok (encodeResponse J resp) := by
  simp only [jsonMarshal, h, if_true]

/-- The response to "add". -/
theorem commandResponse_add (req : CommandRequest) (hc : req.Command = goStr "add") :
    commandResponse req = ⟨F64.add req.A req.B, req.Command, []⟩ := by
  simp only [commandResponse, hc, if_true]

/-- The response to "subtract". -/
theorem commandResponse_subtract (req : CommandRequest) (hc : req.Command = goStr "subtract") :
    commandResponse req = ⟨F64.sub req.A req.B, req.Command, []⟩ := by
  have h1 : goStr "subtract" ≠ goStr "add" := by decide
  simp only [commandResponse, hc, if_true, if_neg h1]

/-- The response to "multiply". -/
theorem commandResponse_multiply (req : CommandRequest) (hc : req.Command = goStr "multiply") :
    commandResponse req = ⟨F64.mul req.A req.B, req.Command, []⟩ := by
  have h1 : goStr "multiply" ≠ goStr "add" := by decide
  have h2 : goStr "multiply" ≠ goStr "subtract" := by decide
  simp only [commandResponse, hc, if_true, if_neg h1, if_neg h2]

/-- The response to "divide" by a divisor that does not compare equal to 0. -/
theorem commandResponse_divide (req : CommandRequest) (hc : req.Command = goStr "divide")
    (hb : req.B.isZero = false) :
    commandResponse req = ⟨F64.div req.A req.B, req.Command, []⟩ := by
  have h1 : goStr "divide" ≠ goStr "add" := by decide
  have h2 : goStr "divide" ≠ goStr "subtract" := by decide
  have h3 : goStr "divide" ≠ goStr "multiply" := by decide
  simp [commandResponse, hc, if_neg h1, if_neg h2, if_neg h3, hb]

/-- The response to "divide" by a zero. -/
theorem commandResponse_divide_zero (req : CommandRequest) (hc : req.Command = goStr "divide")
    (hb : req.B.isZero = true) :
    commandResponse req = ⟨F64.zero false, goStr "divide", goStr "division by zero"⟩ := by
  have h1 : goStr "divide" ≠ goStr "add" := by decide
  have h2 : goStr "divide" ≠ goStr "subtract" := by decide
  have h3 : goStr "divide" ≠ goStr "multiply" := by decide
  simp [commandResponse, hc, if_neg h1, if_neg h2, if_neg h3, hb]

/-- The response to a command outside the four known ones. -/
theorem commandResponse_unknown (req : CommandRequest)
    (h1 : req.Command ≠ goStr "add") (h2 : req.Command ≠ goStr "subtract")
    (h3 : req.Command ≠ goStr "multiply") (h4 : req.Command ≠ goStr "divide") :
    commandResponse req =
      ⟨F64.zero false, req.Command, goStr "unknown command: " ++ req.Command⟩ := by
  simp only [commandResponse, if_neg h1, if_neg h2, if_neg h3, if_neg h4]

set_option maxRecDepth 20000 in
set_option exponentiation.threshold 3000 in
/-- C4, refuted as stated: the payload
`{"command":"multiply","a":1e200,"b":1e200}` parses, its product overflows to
+Inf, and `processCommand` returns an error in place of a response. -/
theorem processCommand_multiply_overflow :
    exampleJSON.unmarshal (goStr "\x7b\"command\":\"multiply\",\"a\":1e200,\"b\":1e200\x7d") =
      .ok ⟨goStr "multiply", F64.ofRat false (10 ^ 200) 1, F64.ofRat false (10 ^ 200) 1⟩ ∧
    F64.mul (F64.ofRat false (10 ^ 200) 1) (F64.ofRat false (10 ^ 200) 1) = .inf false ∧
    processCommand exampleJSON
        (goStr "\x7b\"command\":\"multiply\",\"a\":1e200,\"b\":1e200\x7d") =
      .error (goStr "json: unsupported value: +Inf") :=
  ⟨rfl, by decide, rfl⟩

/-- C4, amended: for a parsed request with command "add", "subtract",
"multiply", or "divide" with a divisor other than zero, whose result is
finite, `processCommand` returns the serialized response that echoes the
command, has no error and has the result `a + b`, `a - b`, `a * b` or `a / b`. -/
theorem processCommand_arithmetic (J : JSON) (payload : Bytes) (req : CommandRequest)
    (h : J.unmarshal payload = .ok req) :
    (req.Command = goStr "add" → (F64.add req.A req.B).isFinite = true →
      processCommand J payload =
        .ok (encodeResponse J ⟨F64.add req.A req.B, req.Command, []⟩)) ∧
    (req.Command = goStr "subtract" → (F64.sub req.A req.B).isFinite = true →
      processCommand J payload =
        .ok (encodeResponse J ⟨F64.sub req.A req.B, req.Command, []⟩)) ∧
    (req.Command = goStr "multiply" → (F64.mul req.A req.B).isFinite = true →
      processCommand J payload =
        .ok (encodeResponse J ⟨F64.mul req.A req.B, req.Command, []⟩)) ∧
    (req.Command = goStr "divide" → req.B.isZero = false →
      (F64.div req.A req.B).isFinite = true →
      processCommand J payload =
        .ok (encodeResponse J ⟨F64.div req.A req.B, req.Command, []⟩)) := by
  rw [processCommand_of_parsed J payload req h]
  refine ⟨fun hc hf => ?_, fun hc hf => ?_, fun hc hf => ?_, fun hc hb hf => ?_⟩
  · rw [commandResponse_add req hc]
    exact jsonMarshal_of_finite J _ hf
  · rw [commandResponse_subtract req hc]
    exact jsonMarshal_of_finite J _ hf
  · rw [commandResponse_multiply req hc]
    exact jsonMarshal_of_finite J _ hf
  · rw [commandResponse_divide req hc hb]
    exact jsonMarshal_of_finite J _ hf

/-- C4 at the payload `{"command":"add","a":2,"b":3}`: the response is
`{"result":5,"command":"add"}`. -/
theorem processCommand_arithmetic_witness :
    exampleJSON.unmarshal (goStr "\x7b\"command\":\"add\",\"a\":2,\"b\":3\x7d") =
      .ok ⟨goStr "add", F64.ofNat 2, F64.ofNat 3⟩ ∧
    F64.add (F64.ofNat 2) (F64.ofNat 3) = F64.ofNat 5 ∧
    processCommand exampleJSON (goStr "\x7b\"command\":\"add\",\"a\":2,\"b\":3\x7d") =
      .ok (encodeResponse exampleJSON ⟨F64.add (F64.ofNat 2) (F64.ofNat 3), goStr "add", []⟩) ∧
    encodeResponse exampleJSON ⟨F64.add (F64.ofNat 2) (F64.ofNat 3), goStr "add", []⟩ =
      goStr "\x7b\"result\":5,\"command\":\"add\"\x7d" :=
  ⟨rfl, by decide,
    (processCommand_arithmetic exampleJSON
      (goStr "\x7b\"command\":\"add\",\"a\":2,\"b\":3\x7d")
      ⟨goStr "add", F64.ofNat 2, F64.ofNat 3⟩ rfl).1 rfl (by decide),
    by decide⟩

/-- C5: a parsed "divide" request whose divisor compares equal to 0 is answered
with a response, not an error: result +0, command "divide", error "division by
zero", whatever the dividend. -/
theorem processCommand_divide_by_zero (J : JSON) (payload : Bytes) (req : CommandRequest)
    (h : J.unmarshal payload = .ok req) (hc : req.Command = goStr "divide")
    (hb : req.B.isZero = true) :
    commandResponse req = ⟨F64.zero false, goStr "divide", goStr "division by zero"⟩ ∧
    processCommand J payload =
      .ok (goStr "\x7b\"result\":" ++ J.encodeFloat (F64.zero false) ++
        goStr ",\"command\":" ++ J.encodeString (goStr "divide") ++
        goStr ",\"error\":" ++ J.encodeString (goStr "division by zero") ++ goStr "\x7d") := by
  have hr := commandResponse_divide_zero req hc hb
  refine ⟨hr, ?_⟩
  have hm := jsonMarshal_of_finite J (commandResponse req) (by rw [hr]; rfl)
  rw [processCommand_of_parsed J payload req h, hm, hr]
  have hne : goStr "division by zero" ≠ [] := by decide
  simp only [encodeResponse, if_neg hne, List.append_assoc]

/-- C5 at the payload `{"command":"divide","a":1,"b":0}`. -/
theorem processCommand_divide_by_zero_witness :
    processCommand exampleJSON (goStr "\x7b\"command\":\"divide\",\"a\":1,\"b\":0\x7d") =
      .ok (goStr "\x7b\"result\":0,\"command\":\"divide\",\"error\":\"division by zero\"\x7d") :=
  (processCommand_divide_by_zero exampleJSON
    (goStr "\x7b\"command\":\"divide\",\"a\":1,\"b\":0\x7d")
    ⟨goStr "divide", F64.ofNat 1, F64.zero false⟩ rfl rfl rfl).2

/-- C6: a parsed request whose command is none of "add", "subtract",
"multiply", "divide" is answered with a response, not an error: result +0, the
command echoed, and the error "unknown command: " followed by the command,
which therefore occurs in it. -/
theorem processCommand_unknown (J : JSON) (payload : Bytes) (req : CommandRequest)
    (h : J.unmarshal payload = .ok req)
    (h1 : req.Command ≠ goStr "add") (h2 : req.Command ≠ goStr "subtract")
    (h3 : req.Command ≠ goStr "multiply") (h4 : req.Command ≠ goStr "divide") :
    commandResponse req =
      ⟨F64.zero false, req.Command, goStr "unknown command: " ++ req.Command⟩ ∧
    processCommand J payload =
      .ok (goStr "\x7b\"result\":" ++ J.encodeFloat (F64.zero false) ++
        goStr ",\"command\":" ++ J.encodeString req.Command ++
        goStr ",\"error\":" ++ J.encodeString (goStr "unknown command: " ++ req.Command) ++
        goStr "\x7d") ∧
    contains (goStr "unknown command: " ++ req.Command) req.Command = true := by
  have hr := commandResponse_unknown req h1 h2 h3 h4
  refine ⟨hr, ?_, ?_⟩
  · have hm := jsonMarshal_of_finite J (commandResponse req) (by rw [hr]; rfl)
    rw [processCommand_of_parsed J payload req h, hm, hr]
    have hne : goStr "unknown command: " ++ req.Command ≠ [] := by
      intro hnil
      have := congrArg List.length hnil
      simp [List.length_append] at this
      exact absurd this.1 (by decide)
    simp only [encodeResponse, if_neg hne, List.append_assoc]
  · rw [contains_iff_isInfix]
    exact (List.suffix_append _ _).isInfix

/-- C6 at the payload `{"command":"foo","a":1,"b":1}` and at an empty command. -/
theorem processCommand_unknown_witness :
    processCommand exampleJSON (goStr "\x7b\"command\":\"foo\",\"a\":1,\"b\":1\x7d") =
      .ok (goStr "\x7b\"result\":0,\"command\":\"foo\",\"error\":\"unknown command: foo\"\x7d") ∧
    commandResponse ⟨[], F64.ofNat 1, F64.ofNat 1⟩ =
      ⟨F64.zero false, [], goStr "unknown command: "⟩ :=
  ⟨(processCommand_unknown exampleJSON
      (goStr "\x7b\"command\":\"foo\",\"a\":1,\"b\":1\x7d")
      ⟨goStr "foo", F64.ofNat 1, F64.ofNat 1⟩ rfl
      (by decide) (by decide) (by decide) (by decide)).2.1,
    by decide⟩

/-- The error of the response built for a request is empty unless the
command is unknown or is "divide" with a divisor that compares equal to 0. -/
theorem commandResponse_error_ne_nil_iff (req : CommandRequest) :
    (commandResponse req).Error ≠ [] ↔
      ((req.Command ≠ goStr "add" ∧ req.Command ≠ goStr "subtract" ∧
          req.Command ≠ goStr "multiply" ∧ req.Command ≠ goStr "divide") ∨
        (req.Command = goStr "divide" ∧ req.B.isZero = true)) := by
  by_cases h1 : req.Command = goStr "add"
  · rw [commandResponse_add req h1]
    have : goStr "add" ≠ goStr "divide" := by decide
    simp [h1, this]
  by_cases h2 : req.Command = goStr "subtract"
  · rw [commandResponse_subtract req h2]
    have : goStr "subtract" ≠ goStr "divide" := by decide
    simp [h2, this]
  by_cases h3 : req.Command = goStr "multiply"
  · rw [commandResponse_multiply req h3]
    have : goStr "multiply" ≠ goStr "divide" := by decide
    simp [h3, this]
  by_cases h4 : req.Command = goStr "divide"
  · cases hb : req.B.isZero
    · rw [commandResponse_divide req h4 hb]
      simp [h4]
    · rw [commandResponse_divide_zero req h4 hb]
      have : goStr "division by zero" ≠ [] := by decide
      simp [h4, this]
  · rw [commandResponse_unknown req h1 h2 h3 h4]
    have : goStr "unknown command: " ++ req.Command ≠ [] := by
      intro hnil
      have := congrArg List.length hnil
      simp [List.length_append] at this
      exact absurd this.1 (by decide)
    simp [h1, h2, h3, h4, this]

/-- A response that carries an error has the result +0, which is finite. -/
theorem commandResponse_finite_of_error (req : CommandRequest)
    (hne : (commandResponse req).Error ≠ []) :
    (commandResponse req).Result.isFinite = true := by
  rcases (commandResponse_error_ne_nil_iff req).1 hne with ⟨h1, h2, h3, h4⟩ | ⟨h4, hb⟩
  · rw [commandResponse_unknown req h1 h2 h3 h4]
    rfl
  · rw [commandResponse_divide_zero req h4 hb]
    rfl

/-- What `json.Marshal` returns for a response whose result is not finite. -/
theorem jsonMarshal_of_not_finite (J : JSON) (resp : CommandResponse)
    (h : resp.Result.isFinite = false) :
    jsonMarshal J resp =
      .error (goStr "json: unsupported value: " ++ formatNonFinite resp.Result) := by
  simp [jsonMarshal, h]

/-- C7: for a parsed request, the response `processCommand` builds and hands to
`json.Marshal` has a non-empty error exactly when the command is unknown or is
"divide" with a divisor equal to 0.  When the error is non-empty,
`processCommand` returns the serialized form with the key `error`; when it is
empty, `processCommand` returns the serialized form that ends after `command`,
without the key, or, for a result that is not finite, the error of
`json.Marshal` and no serialized form at all.  Whatever `processCommand`
returns without error is the serialized form of that response. -/
theorem processCommand_error_iff (J : JSON) (payload : Bytes) (req : CommandRequest)
    (h : J.unmarshal payload = .ok req) :
    processCommand J payload = jsonMarshal J (commandResponse req) ∧
    ((commandResponse req).Error ≠ [] ↔
      ((req.Command ≠ goStr "add" ∧ req.Command ≠ goStr "subtract" ∧
          req.Command ≠ goStr "multiply" ∧ req.Command ≠ goStr "divide") ∨
        (req.Command = goStr "divide" ∧ req.B.isZero = true))) ∧
    ((commandResponse req).Error ≠ [] →
      encodeResponse J (commandResponse req) =
        goStr "\x7b\"result\":" ++ J.encodeFloat (commandResponse req).Result ++
          goStr ",\"command\":" ++ J.encodeString (commandResponse req).Command ++
          goStr ",\"error\":" ++ J.encodeString (commandResponse req).Error ++ goStr "\x7d") ∧
    ((commandResponse req).Error = [] →
      encodeResponse J (commandResponse req) =
        goStr "\x7b\"result\":" ++ J.encodeFloat (commandResponse req).Result ++
          goStr ",\"command\":" ++ J.encodeString (commandResponse req).Command ++
          goStr "\x7d") ∧
    ((commandResponse req).Error ≠ [] →
      processCommand J payload =
        .ok (goStr "\x7b\"result\":" ++ J.encodeFloat (commandResponse req).Result ++
          goStr ",\"command\":" ++ J.encodeString (commandResponse req).Command ++
          goStr ",\"error\":" ++ J.encodeString (commandResponse req).Error ++ goStr "\x7d")) ∧
    ((commandResponse req).Error = [] →
      processCommand J payload =
        if (commandResponse req).Result.isFinite = true then
          .ok (goStr "\x7b\"result\":" ++ J.encodeFloat (commandResponse req).Result ++
            goStr ",\"command\":" ++ J.encodeString (commandResponse req).Command ++
            goStr "\x7d")
        else
          .error (goStr "json: unsupported value: " ++
            formatNonFinite (commandResponse req).Result)) ∧
    (∀ out, processCommand J payload = .ok out →
      out = encodeResponse J (commandResponse req)) := by
  have hp := processCommand_of_parsed J payload req h
  have h3 : (commandResponse req).Error ≠ [] →
      encodeResponse J (commandResponse req) =
        goStr "\x7b\"result\":" ++ J.encodeFloat (commandResponse req).Result ++
          goStr ",\"command\":" ++ J.encodeString (commandResponse req).Command ++
          goStr ",\"error\":" ++ J.encodeString (commandResponse req).Error ++ goStr "\x7d" := by
    intro hne
    simp only [encodeResponse, if_neg hne, List.append_assoc]
  have h4 : (commandResponse req).Error = [] →
      encodeResponse J (commandResponse req) =
        goStr "\x7b\"result\":" ++ J.encodeFloat (commandResponse req).Result ++
          goStr ",\"command\":" ++ J.encodeString (commandResponse req).Command ++
          goStr "\x7d" := by
    intro he
    simp only [encodeResponse, he, if_true, List.append_nil, List.append_assoc]
  refine ⟨hp, commandResponse_error_ne_nil_iff req, h3, h4, fun hne => ?_, fun he => ?_,
    fun out ho => ?_⟩
  · rw [hp, jsonMarshal_of_finite J _ (commandResponse_finite_of_error req hne), h3 hne]
  · cases hf : (commandResponse req).Result.isFinite
    · rw [hp, jsonMarshal_of_not_finite J _ hf]
      simp
    · rw [hp, jsonMarshal_of_finite J _ hf, h4 he]
      simp
  · rw [hp] at ho
    cases hf : (commandResponse req).Result.isFinite
    · rw [jsonMarshal_of_not_finite J _ hf] at ho
      cases ho
    · rw [jsonMarshal_of_finite J _ hf] at ho
      cases ho
      rfl

/-- C7 at the payloads `{"command":"divide","a":1,"b":0}`, whose response has
an error and is returned with the key `error`, and
`{"command":"add","a":2,"b":3}`, whose response has none and is returned
without the key. -/
theorem processCommand_error_iff_witness :
    (commandResponse ⟨goStr "divide", F64.ofNat 1, F64.zero false⟩).Error ≠ [] ∧
    (commandResponse ⟨goStr "add", F64.ofNat 2, F64.ofNat 3⟩).Error = [] ∧
    ((commandResponse ⟨goStr "divide", F64.ofNat 1, F64.zero false⟩).Error ≠ [] ↔
      ((goStr "divide" ≠ goStr "add" ∧ goStr "divide" ≠ goStr "subtract" ∧
          goStr "divide" ≠ goStr "multiply" ∧ goStr "divide" ≠ goStr "divide") ∨
        (goStr "divide" = goStr "divide" ∧ (F64.zero false).isZero = true))) ∧
    processCommand exampleJSON (goStr "\x7b\"command\":\"divide\",\"a\":1,\"b\":0\x7d") =
      .ok (goStr "\x7b\"result\":0,\"command\":\"divide\",\"error\":\"division by zero\"\x7d") ∧
    processCommand exampleJSON (goStr "\x7b\"command\":\"add\",\"a\":2,\"b\":3\x7d") =
      .ok (goStr "\x7b\"result\":5,\"command\":\"add\"\x7d") :=
  ⟨by decide, by decide,
    (processCommand_error_iff exampleJSON
      (goStr "\x7b\"command\":\"divide\",\"a\":1,\"b\":0\x7d")
      ⟨goStr "divide", F64.ofNat 1, F64.zero false⟩ rfl).2.1,
    (processCommand_error_iff exampleJSON
      (goStr "\x7b\"command\":\"divide\",\"a\":1,\"b\":0\x7d")
      ⟨goStr "divide", F64.ofNat 1, F64.zero false⟩ rfl).2.2.2.2.1 (by decide),
    (processCommand_error_iff exampleJSON
      (goStr "\x7b\"command\":\"add\",\"a\":2,\"b\":3\x7d")
      ⟨goStr "add", F64.ofNat 2, F64.ofNat 3⟩ rfl).2.2.2.2.2.1 (by decide)⟩

set_option maxRecDepth 20000 in
set_option exponentiation.threshold 3000 in
/-- C8, refuted as stated: the payload
`{"command":"add","a":1.7976931348623157e308,"b":1.7976931348623157e308}`
parses, both operands being the largest finite `float64`, and `processCommand`
returns the error of `json.Marshal`, which is no parse failure. -/
theorem processCommand_add_overflow :
    exampleJSON.unmarshal (goStr
        "\x7b\"command\":\"add\",\"a\":1.7976931348623157e308,\"b\":1.7976931348623157e308\x7d") =
      .ok ⟨goStr "add", F64.maxFloat64, F64.maxFloat64⟩ ∧
    F64.add F64.maxFloat64 F64.maxFloat64 = .inf false ∧
    processCommand exampleJSON (goStr
        "\x7b\"command\":\"add\",\"a\":1.7976931348623157e308,\"b\":1.7976931348623157e308\x7d") =
      .error (goStr "json: unsupported value: +Inf") :=
  ⟨rfl, by decide, rfl⟩

/-- C8, amended: for a payload that parses, `processCommand` returns the
serialized response exactly when the result it computed is finite, which it is
whenever the response carries an error; when the result is NaN or infinite it
returns the error "json: unsupported value: " followed by the value. -/
theorem processCommand_ok_iff_finite (J : JSON) (payload : Bytes) (req : CommandRequest)
    (h : J.unmarshal payload = .ok req) :
    ((∃ out, processCommand J payload = .ok out) ↔
      (commandResponse req).Result.isFinite = true) ∧
    ((commandResponse req).Result.isFinite = true →
      processCommand J payload = .ok (encodeResponse J (commandResponse req))) ∧
    ((commandResponse req).Result.isFinite = false →
      processCommand J payload =
        .error (goStr "json: unsupported value: " ++
          formatNonFinite (commandResponse req).Result)) ∧
    ((commandResponse req).Error ≠ [] → (commandResponse req).Result.isFinite = true) := by
  rw [processCommand_of_parsed J payload req h]
  refine ⟨?_, fun hf => jsonMarshal_of_finite J _ hf, fun hf => ?_, fun hne => ?_⟩
  · cases hf : (commandResponse req).Result.isFinite
    · simp [jsonMarshal, hf]
    · simp [jsonMarshal, hf]
  · simp [jsonMarshal, hf]
  · rcases (commandResponse_error_ne_nil_iff req).1 hne with ⟨h1, h2, h3, h4⟩ | ⟨h4, hb⟩
    · rw [commandResponse_unknown req h1 h2 h3 h4]
      rfl
    · rw [commandResponse_divide_zero req h4 hb]
      rfl

/-- C8 at the payload `{"command":"add","a":2,"b":3}`, whose sum is finite. -/
theorem processCommand_ok_iff_finite_witness :
    (commandResponse ⟨goStr "add", F64.ofNat 2, F64.ofNat 3⟩).Result.isFinite = true ∧
    processCommand exampleJSON (goStr "\x7b\"command\":\"add\",\"a\":2,\"b\":3\x7d") =
      .ok (goStr "\x7b\"result\":5,\"command\":\"add\"\x7d") :=
  ⟨by decide,
    (processCommand_ok_iff_finite exampleJSON
      (goStr "\x7b\"command\":\"add\",\"a\":2,\"b\":3\x7d")
      ⟨goStr "add", F64.ofNat 2, F64.ofNat 3⟩ rfl).2.1 (by decide)⟩

/-! ### Text messages -/

/-- The bytes of the literal "UPPER:". -/
theorem goStr_upper : goStr "UPPER:" = [0x55, 0x50, 0x50, 0x45, 0x52, 0x3A] := by decide

/-- The bytes of the literal "REVERSE:". -/
theorem goStr_reverse :
    goStr "REVERSE:" = [0x52, 0x45, 0x56, 0x45, 0x52, 0x53, 0x45, 0x3A] := by decide

/-- Decoding ASCII text gives back its bytes. -/
theorem toRunesAux_ascii (s : Bytes) : ∀ fuel, s.length ≤ fuel → (∀ c ∈ s, c < 0x80) →
    toRunesAux fuel s = s := by
  induction s with
  | nil => intro fuel _ _; cases fuel <;> rfl
  | cons c cs ih =>
    intro fuel hlen hs
    cases fuel with
    | zero => simp at hlen
    | succ fuel =>
      have hc : c < 0x80 := hs c (List.mem_cons_self _ _)
      have hd : decodeRune (c :: cs) = (c, 1) := by simp [decodeRune, hc]
      simp only [toRunesAux, hd, List.drop_succ_cons, List.drop_zero]
      rw [ih fuel (by simpa using hlen) (fun x hx => hs x (List.mem_cons_of_mem _ hx))]

/-- Encoding ASCII runes gives back the runes. -/
theorem ofRunes_ascii (s : List Nat) (hs : ∀ c ∈ s, c < 0x80) : ofRunes s = s := by
  induction s with
  | nil => rfl
  | cons c cs ih =>
    have hc : c < 0x80 := hs c (List.mem_cons_self _ _)
    have he : encodeRune c = [c] := by simp [encodeRune, hc]
    have := ih (fun x hx => hs x (List.mem_cons_of_mem _ hx))
    simp only [ofRunes, List.flatMap_cons, he] at this ⊢
    simp [this]

/-- The result of `strings.ToUpper` is the encoding of the upper case forms of
the runes of its argument, in order. -/
theorem toUpper_eq_map (U : Unicode) (s : Bytes) :
    toUpper U s = ofRunes ((toRunes s).map (toUpperRune U)) := by
  unfold toUpper
  split
  · rename_i h
    have hs : ∀ c ∈ s, c < 0x80 := by
      intro c hc
      have := (List.all_eq_true.1 h) c hc
      simpa [RuneSelf] using this
    rw [toRunes, toRunesAux_ascii s s.length (le_refl _) hs]
    have hmap : s.map (toUpperRune U) =
        s.map (fun c => if 0x61 ≤ c && c ≤ 0x7A then c - 32 else c) := by
      apply List.map_congr_left
      intro c hc
      simp [toUpperRune, hs c hc]
    rw [hmap, ofRunes_ascii]
    intro c hc
    rcases List.mem_map.1 hc with ⟨x, hx, rfl⟩
    have := hs x hx
    split <;> omega
  · rfl

/-- C9, refuted as stated: the empty text message does not begin with `{`, and
its response is empty, without decoration, the counter being left as it was. -/
theorem dispatchText_empty :
    ([] : Bytes).head? ≠ some 0x7B ∧
      dispatchText asciiTables exampleJSON 0 [] = ([], 0) :=
  ⟨by decide, by decide⟩

/-- C9, amended: for a non-empty text message that does not begin with `{`,
the counter is incremented by one as a `uint64` and the response is
"[Msg #n] " followed by the reversed remainder after "REVERSE:", the upper
case remainder after "UPPER:", or the message itself, `n` being the counter
after the increment. -/
theorem dispatchText_plain (U : Unicode) (J : JSON) (counter : Nat) (payload : Bytes)
    (hne : payload ≠ []) (hb : payload.head? ≠ some 0x7B) :
    dispatchText U J counter payload =
      (goStr "[Msg #" ++ decimal (addUint64 counter 1) ++ goStr "] " ++
        (if hasPrefix payload (goStr "REVERSE:") then
          reverseString (trimPrefix payload (goStr "REVERSE:"))
        else if hasPrefix payload (goStr "UPPER:") then
          toUpper U (trimPrefix payload (goStr "UPPER:"))
        else payload),
       addUint64 counter 1) ∧
    (counter + 1 < 2 ^ 64 → addUint64 counter 1 = counter + 1) := by
  have hlen : 0 < payload.length := List.length_pos.2 hne
  refine ⟨?_, fun h => Nat.mod_eq_of_lt h⟩
  unfold dispatchText
  rw [if_neg (fun h => hb h.2), if_pos ⟨hlen, hb⟩]

/-- C9 at the message "hi" with the counter at 41. -/
theorem dispatchText_plain_witness :
    dispatchText asciiTables exampleJSON 41 (goStr "hi") = (goStr "[Msg #42] hi", 42) :=
  (dispatchText_plain asciiTables exampleJSON 41 (goStr "hi") (by decide) (by decide)).1

/-- C10: the response to "UPPER:" followed by `t` is "[Msg #n] " followed by
the upper case form of `t`, which is the encoding of the upper case forms of
the runes of `t`; `n` is `c + 1` in `uint64`, the value `atomic.AddUint64`
returns, which is the number `c + 1` whenever that fits 64 bits. -/
theorem dispatchText_upper (U : Unicode) (J : JSON) (counter : Nat) (t : Bytes) :
    dispatchText U J counter (goStr "UPPER:" ++ t) =
      (goStr "[Msg #" ++ decimal (addUint64 counter 1) ++ goStr "] " ++ toUpper U t,
        addUint64 counter 1) ∧
    toUpper U t = ofRunes ((toRunes t).map (toUpperRune U)) ∧
    (counter + 1 < 2 ^ 64 → addUint64 counter 1 = counter + 1) := by
  refine ⟨?_, toUpper_eq_map U t, fun h => Nat.mod_eq_of_lt h⟩
  simp [dispatchText, goStr_upper, goStr_reverse, hasPrefix, trimPrefix]

/-- C10 at the message "UPPER:hello" with the counter at 0. -/
theorem dispatchText_upper_witness :
    dispatchText asciiTables exampleJSON 0 (goStr "UPPER:" ++ goStr "hello") =
      (goStr "[Msg #1] HELLO", 1) :=
  (dispatchText_upper asciiTables exampleJSON 0 (goStr "hello")).1

/-! ### UTF-8 -/

/-- Decoding the encoding of a valid rune gives the rune back, with the width
of its encoding, whatever follows. -/
theorem decodeRune_encodeRune (r : Nat) (rest : Bytes) (h : validRune r = true) :
    decodeRune (encodeRune r ++ rest) = (r, (encodeRune r).length) := by
  simp only [validRune, MaxRune, Bool.or_eq_true, Bool.and_eq_true, decide_eq_true_eq] at h
  by_cases h1 : r < 0x80
  · simp [encodeRune, decodeRune, h1]
  by_cases h2 : r < 0x800
  · have a1 : ¬ (0xC0 + r / 64 < 0x80) := by omega
    have a2 : ¬ (0xC0 + r / 64 < 0xC2) := by omega
    have a3 : 0xC0 + r / 64 < 0xE0 := by omega
    have a4 : isCont (0x80 + r % 64) = true := by simp [isCont]; omega
    simp only [encodeRune, if_neg h1, if_pos h2, decodeRune, List.cons_append, List.nil_append,
      if_neg a1, if_neg a2, if_pos a3, a4, if_true, List.length_cons, List.length_nil]
    simp only [Prod.mk.injEq, and_true]
    omega
  have h3 : ¬ ((decide (MaxRune < r) || (decide (0xD800 ≤ r) && decide (r ≤ 0xDFFF))) = true) := by
    simp only [MaxRune, Bool.or_eq_true, Bool.and_eq_true, decide_eq_true_eq]
    omega
  by_cases h4 : r < 0x10000
  · have a1 : ¬ (0xE0 + r / 4096 < 0x80) := by omega
    have a2 : ¬ (0xE0 + r / 4096 < 0xC2) := by omega
    have a3 : ¬ (0xE0 + r / 4096 < 0xE0) := by omega
    have a4 : 0xE0 + r / 4096 < 0xF0 := by omega
    have a5 : isCont (0x80 + r % 64) = true := by simp [isCont]; omega
    have a6 : ((decide ((if 0xE0 + r / 4096 = 0xE0 then 0xA0 else 0x80) ≤ 0x80 + r / 64 % 64) &&
        decide (0x80 + r / 64 % 64 ≤ if 0xE0 + r / 4096 = 0xED then 0x9F else 0xBF)) &&
        isCont (0x80 + r % 64)) = true := by
      rw [a5]
      simp only [Bool.and_true, Bool.and_eq_true, decide_eq_true_eq]
      constructor <;> split <;> omega
    simp only [encodeRune, if_neg h1, if_neg h2, if_neg h3, if_pos h4, decodeRune,
      List.cons_append, List.nil_append, if_neg a1, if_neg a2, if_neg a3, if_pos a4, a6, if_true,
      List.length_cons, List.length_nil]
    simp only [Prod.mk.injEq, and_true]
    omega
  · have a1 : ¬ (0xF0 + r / 262144 < 0x80) := by omega
    have a2 : ¬ (0xF0 + r / 262144 < 0xC2) := by omega
    have a3 : ¬ (0xF0 + r / 262144 < 0xE0) := by omega
    have a4 : ¬ (0xF0 + r / 262144 < 0xF0) := by omega
    have a5 : 0xF0 + r / 262144 < 0xF5 := by omega
    have a6 : (((decide ((if 0xF0 + r / 262144 = 0xF0 then 0x90 else 0x80) ≤
          0x80 + r / 4096 % 64) &&
        decide (0x80 + r / 4096 % 64 ≤ if 0xF0 + r / 262144 = 0xF4 then 0x8F else 0xBF)) &&
        isCont (0x80 + r / 64 % 64)) && isCont (0x80 + r % 64)) = true := by
      have c1 : isCont (0x80 + r / 64 % 64) = true := by simp [isCont]; omega
      have c2 : isCont (0x80 + r % 64) = true := by simp [isCont]; omega
      rw [c1, c2]
      simp only [Bool.and_true, Bool.and_eq_true, decide_eq_true_eq]
      constructor <;> split <;> omega
    simp only [encodeRune, if_neg h1, if_neg h2, if_neg h3, if_neg h4, decodeRune,
      List.cons_append, List.nil_append, if_neg a1, if_neg a2, if_neg a3, if_neg a4, if_pos a5,
      a6, if_true, List.length_cons, List.length_nil]
    simp only [Prod.mk.injEq, and_true]
    omega


/-- At a non-empty input the decoder reports the error pair, or a valid rune
whose encoding is the bytes it consumed. -/
theorem decodeRune_cases (s0 : Nat) (rest : Bytes) :
    decodeRune (s0 :: rest) = (RuneError, 1) ∨
      (validRune (decodeRune (s0 :: rest)).1 = true ∧
        encodeRune (decodeRune (s0 :: rest)).1 =
          (s0 :: rest).take (decodeRune (s0 :: rest)).2) := by
  by_cases h1 : s0 < 0x80
  · right
    have hd : decodeRune (s0 :: rest) = (s0, 1) := by simp [decodeRune, h1]
    rw [hd]
    refine ⟨?_, ?_⟩
    · simp only [validRune, Bool.or_eq_true, decide_eq_true_eq]; left; omega
    · simp [encodeRune, h1]
  by_cases h2 : s0 < 0xC2
  · left; simp [decodeRune, h1, h2]
  by_cases h3 : s0 < 0xE0
  · cases rest with
    | nil => left; simp [decodeRune, h1, h2, h3]
    | cons s1 rest =>
      by_cases c : isCont s1 = true
      · right
        have hd : decodeRune (s0 :: s1 :: rest) = ((s0 % 32) * 64 + s1 % 64, 2) := by
          simp [decodeRune, h1, h2, h3, c]
        rw [hd]
        simp only [isCont, Bool.and_eq_true, decide_eq_true_eq] at c
        have r1 : ¬ ((s0 % 32) * 64 + s1 % 64 < 0x80) := by omega
        have r2 : (s0 % 32) * 64 + s1 % 64 < 0x800 := by omega
        refine ⟨?_, ?_⟩
        · simp only [validRune, Bool.or_eq_true, decide_eq_true_eq]; left; omega
        · simp only [encodeRune, if_neg r1, if_pos r2, List.take_succ_cons, List.take_zero,
            List.cons.injEq, and_true]
          constructor <;> omega
      · left; simp [decodeRune, h1, h2, h3, c]
  by_cases h4 : s0 < 0xF0
  · rcases rest with _ | ⟨s1, _ | ⟨s2, rest⟩⟩
    · left; simp [decodeRune, h1, h2, h3, h4]
    · left; simp [decodeRune, h1, h2, h3, h4]
    · by_cases c : ((decide ((if s0 = 0xE0 then 0xA0 else 0x80) ≤ s1) &&
          decide (s1 ≤ if s0 = 0xED then 0x9F else 0xBF)) && isCont s2) = true
      · right
        have hd : decodeRune (s0 :: s1 :: s2 :: rest) =
            (((s0 % 16) * 64 + s1 % 64) * 64 + s2 % 64, 3) := by
          simp only [decodeRune, if_neg h1, if_neg h2, if_neg h3, if_pos h4, c, if_true]
        rw [hd]
        simp only [isCont, Bool.and_eq_true, decide_eq_true_eq] at c
        obtain ⟨⟨c1, c2⟩, c3, c4⟩ := c
        have b1 : (if s0 = 0xE0 then 0xA0 else 0x80) ≤ s1 →
            (s0 = 0xE0 → 0xA0 ≤ s1) ∧ 0x80 ≤ s1 := by
          intro hh; split at hh <;> omega
        have b2 : (s1 ≤ if s0 = 0xED then 0x9F else 0xBF) →
            (s0 = 0xED → s1 ≤ 0x9F) ∧ s1 ≤ 0xBF := by
          intro hh; split at hh <;> omega
        obtain ⟨d1, d2⟩ := b1 c1
        obtain ⟨d3, d4⟩ := b2 c2
        have r1 : ¬ (((s0 % 16) * 64 + s1 % 64) * 64 + s2 % 64 < 0x80) := by omega
        have r2 : ¬ (((s0 % 16) * 64 + s1 % 64) * 64 + s2 % 64 < 0x800) := by omega
        have r4 : ((s0 % 16) * 64 + s1 % 64) * 64 + s2 % 64 < 0x10000 := by omega
        have r5 : ((s0 % 16) * 64 + s1 % 64) * 64 + s2 % 64 < 0xD800 ∨
            0xE000 ≤ ((s0 % 16) * 64 + s1 % 64) * 64 + s2 % 64 := by omega
        have r3 : ¬ ((decide (MaxRune < ((s0 % 16) * 64 + s1 % 64) * 64 + s2 % 64) ||
            (decide (0xD800 ≤ ((s0 % 16) * 64 + s1 % 64) * 64 + s2 % 64) &&
              decide (((s0 % 16) * 64 + s1 % 64) * 64 + s2 % 64 ≤ 0xDFFF))) = true) := by
          simp only [MaxRune, Bool.or_eq_true, Bool.and_eq_true, decide_eq_true_eq]
          omega
        refine ⟨?_, ?_⟩
        · simp only [validRune, MaxRune, Bool.or_eq_true, Bool.and_eq_true, decide_eq_true_eq]
          omega
        · simp only [encodeRune, if_neg r1, if_neg r2, if_neg r3, if_pos r4, List.take_succ_cons,
            List.take_zero, List.cons.injEq, and_true]
          refine ⟨?_, ?_, ?_⟩ <;> omega
      · left
        simp only [decodeRune, if_neg h1, if_neg h2, if_neg h3, if_pos h4, c]
        simp
  by_cases h5 : s0 < 0xF5
  · rcases rest with _ | ⟨s1, _ | ⟨s2, _ | ⟨s3, rest⟩⟩⟩
    · left; simp [decodeRune, h1, h2, h3, h4, h5]
    · left; simp [decodeRune, h1, h2, h3, h4, h5]
    · left; simp [decodeRune, h1, h2, h3, h4, h5]
    · by_cases c : (((decide ((if s0 = 0xF0 then 0x90 else 0x80) ≤ s1) &&
          decide (s1 ≤ if s0 = 0xF4 then 0x8F else 0xBF)) && isCont s2) && isCont s3) = true
      · right
        have hd : decodeRune (s0 :: s1 :: s2 :: s3 :: rest) =
            ((((s0 % 8) * 64 + s1 % 64) * 64 + s2 % 64) * 64 + s3 % 64, 4) := by
          simp only [decodeRune, if_neg h1, if_neg h2, if_neg h3, if_neg h4, if_pos h5, c, if_true]
        rw [hd]
        simp only [isCont, Bool.and_eq_true, decide_eq_true_eq] at c
        obtain ⟨⟨⟨c1, c2⟩, c3, c4⟩, c5, c6⟩ := c
        have b1 : (if s0 = 0xF0 then 0x90 else 0x80) ≤ s1 →
            (s0 = 0xF0 → 0x90 ≤ s1) ∧ 0x80 ≤ s1 := by
          intro hh; split at hh <;> omega
        have b2 : (s1 ≤ if s0 = 0xF4 then 0x8F else 0xBF) →
            (s0 = 0xF4 → s1 ≤ 0x8F) ∧ s1 ≤ 0xBF := by
          intro hh; split at hh <;> omega
        obtain ⟨d1, d2⟩ := b1 c1
        obtain ⟨d3, d4⟩ := b2 c2
        have r1 : ¬ ((((s0 % 8) * 64 + s1 % 64) * 64 + s2 % 64) * 64 + s3 % 64 < 0x80) := by
          omega
        have r2 : ¬ ((((s0 % 8) * 64 + s1 % 64) * 64 + s2 % 64) * 64 + s3 % 64 < 0x800) := by
          omega
        have r4 : ¬ ((((s0 % 8) * 64 + s1 % 64) * 64 + s2 % 64) * 64 + s3 % 64 < 0x10000) := by
          omega
        have r5 : (((s0 % 8) * 64 + s1 % 64) * 64 + s2 % 64) * 64 + s3 % 64 ≤ 0x10FFFF := by
          omega
        have r3 : ¬ ((decide (MaxRune < (((s0 % 8) * 64 + s1 % 64) * 64 + s2 % 64) * 64 + s3 % 64) ||
            (decide (0xD800 ≤ (((s0 % 8) * 64 + s1 % 64) * 64 + s2 % 64) * 64 + s3 % 64) &&
              decide ((((s0 % 8) * 64 + s1 % 64) * 64 + s2 % 64) * 64 + s3 % 64 ≤ 0xDFFF))) =
              true) := by
          simp only [MaxRune, Bool.or_eq_true, Bool.and_eq_true, decide_eq_true_eq]
          omega
        refine ⟨?_, ?_⟩
        · simp only [validRune, MaxRune, Bool.or_eq_true, Bool.and_eq_true, decide_eq_true_eq]
          omega
        · simp only [encodeRune, if_neg r1, if_neg r2, if_neg r3, if_neg r4, List.take_succ_cons,
            List.take_zero, List.cons.injEq, and_true]
          refine ⟨?_, ?_, ?_, ?_⟩ <;> omega
      · left
        simp only [decodeRune, if_neg h1, if_neg h2, if_neg h3, if_neg h4, if_pos h5, c]
        simp
  · left; simp [decodeRune, h1, h2, h3, h4, h5]

/-- The encoding of a rune is not empty. -/
theorem encodeRune_ne_nil (r : Nat) : encodeRune r ≠ [] := by
  unfold encodeRune
  split_ifs <;> simp

/-- The replacement character is a valid rune. -/
theorem validRune_runeError : validRune RuneError = true := by decide

/-- At a non-empty input the decoder consumes at least one byte. -/
theorem decodeRune_width_pos (s0 : Nat) (rest : Bytes) : 1 ≤ (decodeRune (s0 :: rest)).2 := by
  rcases decodeRune_cases s0 rest with h | ⟨_, h⟩
  · rw [h]
  · by_contra hw
    have h0 : (decodeRune (s0 :: rest)).2 = 0 := by omega
    rw [h0, List.take_zero] at h
    exact encodeRune_ne_nil _ h

/-- The rune decoded at a non-empty input is valid. -/
theorem decodeRune_valid (s0 : Nat) (rest : Bytes) :
    validRune (decodeRune (s0 :: rest)).1 = true := by
  rcases decodeRune_cases s0 rest with h | ⟨h, _⟩
  · rw [h]; exact validRune_runeError
  · exact h

/-- Every rune of a string is valid. -/
theorem toRunesAux_valid : ∀ (fuel : Nat) (s : Bytes), ∀ r ∈ toRunesAux fuel s,
    validRune r = true := by
  intro fuel
  induction fuel with
  | zero => intro s r hr; simp [toRunesAux] at hr
  | succ fuel ih =>
    intro s r hr
    cases s with
    | nil => simp [toRunesAux] at hr
    | cons s0 rest =>
      simp only [toRunesAux, List.mem_cons] at hr
      rcases hr with rfl | hr
      · exact decodeRune_valid s0 rest
      · exact ih _ r hr

/-- Decoding the encoding of valid runes gives the runes back. -/
theorem toRunesAux_ofRunes (rs : List Nat) : ∀ fuel, (∀ r ∈ rs, validRune r = true) →
    (ofRunes rs).length ≤ fuel → toRunesAux fuel (ofRunes rs) = rs := by
  induction rs with
  | nil => intro fuel _ _; cases fuel <;> rfl
  | cons r rs ih =>
    intro fuel hv hlen
    have hr : validRune r = true := hv r (List.mem_cons_self _ _)
    have hcons : ofRunes (r :: rs) = encodeRune r ++ ofRunes rs := by
      simp [ofRunes, List.flatMap_cons]
    rw [hcons] at hlen ⊢
    have hpos : 0 < (encodeRune r).length := List.length_pos.2 (encodeRune_ne_nil r)
    rw [List.length_append] at hlen
    cases fuel with
    | zero => omega
    | succ fuel =>
      have hd := decodeRune_encodeRune r (ofRunes rs) hr
      cases he : encodeRune r ++ ofRunes rs with
      | nil =>
        have := congrArg List.length he
        simp only [List.length_append, List.length_nil] at this
        omega
      | cons b bs =>
        rw [he] at hd
        simp only [toRunesAux, hd]
        rw [← he, List.drop_left, ih fuel (fun x hx => hv x (List.mem_cons_of_mem _ hx)) (by omega)]

/-- Decoding and encoding back gives the runes back: no encoding of a valid
rune is split or merged. -/
theorem toRunes_ofRunes (rs : List Nat) (hv : ∀ r ∈ rs, validRune r = true) :
    toRunes (ofRunes rs) = rs :=
  toRunesAux_ofRunes rs _ hv (le_refl _)

/-- Encoding the runes of a valid string gives the string back. -/
theorem ofRunes_toRunesAux : ∀ (fuel : Nat) (s : Bytes), s.length ≤ fuel →
    validStringAux fuel s = true → ofRunes (toRunesAux fuel s) = s := by
  intro fuel
  induction fuel with
  | zero =>
    intro s hlen _
    have : s = [] := List.length_eq_zero.1 (Nat.le_zero.1 hlen)
    subst this
    rfl
  | succ fuel ih =>
    intro s hlen hv
    cases s with
    | nil => rfl
    | cons s0 rest =>
      simp only [validStringAux, Bool.and_eq_true, bne_iff_ne, ne_eq] at hv
      obtain ⟨hne, hrest⟩ := hv
      rcases decodeRune_cases s0 rest with h | ⟨_, henc⟩
      · exact absurd h hne
      · have hw := decodeRune_width_pos s0 rest
        have hlen2 : ((s0 :: rest).drop (decodeRune (s0 :: rest)).2).length ≤ fuel := by
          rw [List.length_drop]
          simp only [List.length_cons] at hlen ⊢
          omega
        have := ih _ hlen2 hrest
        simp only [toRunesAux, ofRunes, List.flatMap_cons] at this ⊢
        rw [this, henc, List.take_append_drop]

/-- Encoding the runes of a valid UTF-8 string gives the string back. -/
theorem ofRunes_toRunes (s : Bytes) (hv : validString s = true) : ofRunes (toRunes s) = s :=
  ofRunes_toRunesAux s.length s (le_refl _) hv

/-! ### `reverseString` -/

/-- Swapping the entries at the two ends of a middle segment. -/
theorem swap_ends (a mid b : List Nat) (x y : Nat) :
    ((a ++ x :: (mid ++ y :: b)).set a.length
        ((a ++ x :: (mid ++ y :: b)).getD (a.length + (mid.length + 1)) 0)).set
          (a.length + (mid.length + 1)) ((a ++ x :: (mid ++ y :: b)).getD a.length 0) =
      a ++ y :: (mid ++ x :: b) := by
  have ha : a.length + (mid.length + 1) - a.length = mid.length + 1 := by omega
  have h1 : (a ++ x :: (mid ++ y :: b)).getD (a.length + (mid.length + 1)) 0 = y := by
    rw [List.getD_append_right _ _ _ _ (by omega), ha, List.getD_cons_succ,
      List.getD_append_right _ _ _ _ (le_refl _)]
    simp
  have h2 : (a ++ x :: (mid ++ y :: b)).getD a.length 0 = x := by
    rw [List.getD_append_right _ _ _ _ (le_refl _)]
    simp
  rw [h1, h2, List.set_append_right _ _ (le_refl _)]
  simp only [Nat.sub_self, List.set_cons_zero]
  rw [List.set_append_right _ _ (by omega), ha, List.set_cons_succ,
    List.set_append_right _ _ (le_refl _)]
  simp

/-- The loop of `reverseString`, started at the ends of a middle segment with
fuel for its length, reverses that segment and leaves the rest alone. -/
theorem reverseLoop_spec : ∀ (fuel : Nat) (a mid b : List Nat), mid.length ≤ fuel →
    reverseLoop fuel (a ++ mid ++ b) a.length (a.length + mid.length - 1) =
      a ++ mid.reverse ++ b := by
  intro fuel
  induction fuel with
  | zero =>
    intro a mid b h
    have : mid = [] := List.length_eq_zero.1 (Nat.le_zero.1 h)
    subst this
    simp [reverseLoop]
  | succ fuel ih =>
    intro a mid b h
    cases mid with
    | nil => simp [reverseLoop]
    | cons x rest =>
      rcases List.eq_nil_or_concat' rest with hr | ⟨mid', y, hr⟩
      · subst hr
        simp [reverseLoop]
      · subst hr
        have hlen : (x :: (mid' ++ [y])).length = mid'.length + 2 := by simp
        have hlt : a.length < a.length + (x :: (mid' ++ [y])).length - 1 := by
          rw [hlen]; omega
        have hj : a.length + (x :: (mid' ++ [y])).length - 1 = a.length + (mid'.length + 1) := by
          rw [hlen]; omega
        have e1 : a ++ x :: (mid' ++ [y]) ++ b = a ++ x :: (mid' ++ y :: b) := by simp
        have key : reverseLoop fuel (a ++ y :: (mid' ++ x :: b)) (a.length + 1)
            (a.length + (mid'.length + 1) - 1) = a ++ [y] ++ mid'.reverse ++ x :: b := by
          have := ih (a ++ [y]) mid' (x :: b) (by rw [hlen] at h; omega)
          have e2 : a ++ [y] ++ mid' ++ x :: b = a ++ y :: (mid' ++ x :: b) := by simp
          have e3 : (a ++ [y]).length = a.length + 1 := by simp
          have e4 : a.length + 1 + mid'.length - 1 = a.length + (mid'.length + 1) - 1 := by omega
          rw [e2, e3, e4] at this
          exact this
        rw [reverseLoop, if_pos hlt, hj, e1, swap_ends a mid' b x y, key]
        simp

/-- The loop of `reverseString` reverses the slice. -/
theorem reverseLoop_eq_reverse (runes : List Nat) :
    reverseLoop runes.length runes 0 (runes.length - 1) = runes.reverse := by
  have := reverseLoop_spec runes.length [] runes [] (le_refl _)
  simpa using this

/-- The result of `reverseString` is the encoding of the reversed runes. -/
theorem reverseString_eq (s : Bytes) : reverseString s = ofRunes (toRunes s).reverse := by
  rw [reverseString, reverseLoop_eq_reverse]

/-- C11: the swap loop of `reverseString` reverses the slice of code points,
so `reverseString` returns the encoding of the reversed code points of its
argument; decoded again, the result is the reversed list of code points,
so that code point `i` of the result is code point `n - 1 - i` of the
argument and no multi-byte character is split; and the response to
"REVERSE:" followed by `t` is the counter prefix followed by that reversal. -/
theorem reverseString_reverses (U : Unicode) (J : JSON) (counter : Nat) (t : Bytes) :
    reverseLoop (toRunes t).length (toRunes t) 0 ((toRunes t).length - 1) =
      (toRunes t).reverse ∧
    reverseString t = ofRunes (toRunes t).reverse ∧
    toRunes (reverseString t) = (toRunes t).reverse ∧
    (∀ i, i < (toRunes t).length →
      (toRunes (reverseString t))[i]? = (toRunes t)[(toRunes t).length - 1 - i]?) ∧
    dispatchText U J counter (goStr "REVERSE:" ++ t) =
      (goStr "[Msg #" ++ decimal (addUint64 counter 1) ++ goStr "] " ++ reverseString t,
        addUint64 counter 1) := by
  have h1 := reverseString_eq t
  have h2 : toRunes (reverseString t) = (toRunes t).reverse := by
    rw [h1]
    apply toRunes_ofRunes
    intro r hr
    exact toRunesAux_valid _ _ r (List.mem_reverse.1 hr)
  refine ⟨reverseLoop_eq_reverse (toRunes t), h1, h2, fun i hi => ?_, ?_⟩
  · rw [h2, List.getElem?_reverse hi]
  · simp [dispatchText, goStr_upper, goStr_reverse, hasPrefix, trimPrefix]

/-- C11 at the text "a€b", whose middle character takes three bytes, with the
counter at 6. -/
theorem reverseString_reverses_witness :
    reverseString (goStr "a€b") = goStr "b€a" ∧
    dispatchText asciiTables exampleJSON 6 (goStr "REVERSE:" ++ goStr "a€b") =
      (goStr "[Msg #7] b€a", 7) :=
  ⟨by decide, (reverseString_reverses asciiTables exampleJSON 6 (goStr "a€b")).2.2.2.2⟩

/-- C12, refuted as stated: the one-byte text 0xFF is no valid UTF-8; reversing
it gives the three bytes of the replacement character, and reversing again
does not give 0xFF back. -/
theorem reverseString_twice_invalid :
    validString [0xFF] = false ∧
    reverseString (reverseString [0xFF]) = [0xEF, 0xBF, 0xBD] ∧
    reverseString (reverseString [0xFF]) ≠ [0xFF] := by decide

/-- C12, amended: reversing twice gives the re-encoding of the code points of
the text, in which every byte that starts no valid encoding has become the
replacement character; on valid UTF-8 text it gives the text back. -/
theorem reverseString_reverseString (t : Bytes) :
    reverseString (reverseString t) = ofRunes (toRunes t) ∧
    (validString t = true → reverseString (reverseString t) = t) := by
  have h : reverseString (reverseString t) = ofRunes (toRunes t) := by
    have h2 : toRunes (reverseString t) = (toRunes t).reverse := by
      rw [reverseString_eq]
      apply toRunes_ofRunes
      intro r hr
      exact toRunesAux_valid _ _ r (List.mem_reverse.1 hr)
    rw [reverseString_eq (reverseString t), h2, List.reverse_reverse]
  exact ⟨h, fun hv => by rw [h, ofRunes_toRunes t hv]⟩

/-- C12 at the valid text "héllo". -/
theorem reverseString_reverseString_witness :
    validString (goStr "héllo") = true ∧
    reverseString (reverseString (goStr "héllo")) = goStr "héllo" :=
  ⟨by decide, (reverseString_reverseString (goStr "héllo")).2 (by decide)⟩

/-! ### The message counter and the session -/

/-- An increment changes the counter, also when it wraps. -/
theorem addUint64_one_ne (c : Nat) : addUint64 c 1 ≠ c := by
  unfold addUint64
  omega

/-- The counter after a text message is the value the message obtained from
`atomic.AddUint64`, and the counter before it when it obtained none. -/
theorem dispatchText_counter (U : Unicode) (J : JSON) (c : Nat) (p : Bytes) :
    (dispatchText U J c p).2 = (observedCount c p).getD c := by
  unfold dispatchText observedCount
  by_cases h1 : 0 < p.length ∧ p.head? = some 0x7B
  · rw [if_pos h1, if_pos h1]
    cases processCommand J p <;> rfl
  · rw [if_neg h1, if_neg h1]
    by_cases h2 : 0 < p.length ∧ p.head? ≠ some 0x7B
    · rw [if_pos h2, if_pos h2]; rfl
    · rw [if_neg h2, if_neg h2]; rfl

/-- While the counter stays below `2 ^ 64`, the values obtained along a
sequence of messages are the successors of the initial counter, in order. -/
theorem observedCounts_eq_range' (U : Unicode) (J : JSON) (msgs : List (Nat × Bytes)) :
    ∀ c, c + (observedCounts U J c msgs).length < 2 ^ 64 →
      observedCounts U J c msgs = List.range' (c + 1) (observedCounts U J c msgs).length := by
  induction msgs with
  | nil => intro c _; simp [observedCounts]
  | cons m rest ih =>
    intro c h
    obtain ⟨t, p⟩ := m
    by_cases ht : t = TextMessage
    · simp only [observedCounts, if_pos ht] at h ⊢
      rw [dispatchText_counter] at h ⊢
      cases ho : observedCount c p with
      | none =>
        rw [ho] at h
        simp only [Option.toList, Option.getD_none, List.nil_append] at h ⊢
        exact ih c h
      | some n =>
        rw [ho] at h
        have hn : n = c + 1 := by
          unfold observedCount at ho
          split_ifs at ho
          simp only [Option.some.injEq] at ho
          rw [← ho]
          simp only [Option.toList, Option.getD_some, List.singleton_append,
            List.length_cons] at h
          unfold addUint64
          omega
        subst hn
        simp only [Option.toList, Option.getD_some, List.singleton_append, List.length_cons] at h ⊢
        rw [List.range'_succ]
        congr 1
        exact ih (c + 1) (by omega)
    · simp only [observedCounts, if_neg ht] at h ⊢
      exact ih c h

/-- The values obtained by `n` text messages "a" are the successors of the
initial counter modulo `2 ^ 64`. -/
theorem observedCounts_replicate (U : Unicode) (J : JSON) (n : Nat) : ∀ c,
    observedCounts U J c (List.replicate n (TextMessage, [0x61])) =
      (List.range n).map (fun i => (c + i + 1) % 2 ^ 64) := by
  induction n with
  | zero => intro c; rfl
  | succ n ih =>
    intro c
    have ho : observedCount c [0x61] = some (addUint64 c 1) := by
      simp [observedCount]
    rw [List.replicate_succ, observedCounts, if_pos rfl, dispatchText_counter, ho,
      List.range_succ_eq_map, ih]
    simp only [Option.toList, Option.getD_some, List.singleton_append, List.map_cons,
      List.map_map, addUint64]
    congr 1
    apply List.map_congr_left
    intro i _
    simp only [Function.comp, Nat.succ_eq_add_one]
    omega

/-- C13, refuted as stated: along `2 ^ 64` text messages "a" processed from the
counter 0, the values obtained are not strictly increasing: the first message
obtains 1 and the last one, after the counter has wrapped, obtains 0. -/
theorem observedCounts_wrap :
    (observedCounts asciiTables exampleJSON 0
        (List.replicate (2 ^ 64) (TextMessage, [0x61])))[0]? = some 1 ∧
    (observedCounts asciiTables exampleJSON 0
        (List.replicate (2 ^ 64) (TextMessage, [0x61])))[2 ^ 64 - 1]? = some 0 ∧
    ¬ (observedCounts asciiTables exampleJSON 0
        (List.replicate (2 ^ 64) (TextMessage, [0x61]))).Pairwise (fun a b => a < b) := by
  rw [observedCounts_replicate]
  refine ⟨by simp, by simp, ?_⟩
  intro h
  rw [List.pairwise_iff_getElem] at h
  have := h 0 (2 ^ 64 - 1) (by simp) (by simp) (by omega)
  simp at this

/-- C13, amended: along every sequence of messages over which the counter does
not pass `2 ^ 64 - 1`, the values the messages obtain are the successors of
the initial counter in order, hence strictly increasing and pairwise
different. -/
theorem observedCounts_increasing (U : Unicode) (J : JSON) (c : Nat) (msgs : List (Nat × Bytes))
    (h : c + (observedCounts U J c msgs).length < 2 ^ 64) :
    observedCounts U J c msgs = List.range' (c + 1) (observedCounts U J c msgs).length ∧
    (observedCounts U J c msgs).Pairwise (fun a b => a < b) ∧
    (observedCounts U J c msgs).Nodup := by
  have he := observedCounts_eq_range' U J msgs c h
  have hp : (observedCounts U J c msgs).Pairwise (fun a b => a < b) := by
    rw [he]
    exact List.pairwise_lt_range' _ _
  exact ⟨he, hp, hp.imp (fun hab => Nat.ne_of_lt hab)⟩

/-- C13 at a sequence of a text message, a binary message, an empty text
message, a structured message and another text message, from the counter 7. -/
theorem observedCounts_increasing_witness :
    observedCounts asciiTables exampleJSON 7
        [(TextMessage, goStr "a"), (BinaryMessage, goStr "b"), (TextMessage, []),
          (TextMessage, goStr "\x7b"), (TextMessage, goStr "c")] = [8, 9] ∧
    (observedCounts asciiTables exampleJSON 7
        [(TextMessage, goStr "a"), (BinaryMessage, goStr "b"), (TextMessage, []),
          (TextMessage, goStr "\x7b"), (TextMessage, goStr "c")]).Pairwise (fun a b => a < b) :=
  ⟨by decide,
    (observedCounts_increasing asciiTables exampleJSON 7
      [(TextMessage, goStr "a"), (BinaryMessage, goStr "b"), (TextMessage, []),
        (TextMessage, goStr "\x7b"), (TextMessage, goStr "c")] (by decide)).2.1⟩

/-- What `processCommand` returns without error starts with an opening brace. -/
theorem processCommand_ok_head (J : JSON) (payload out : Bytes)
    (h : processCommand J payload = .ok out) : out.head? = some 0x7B := by
  unfold processCommand at h
  cases hu : J.unmarshal payload with
  | error e => rw [hu] at h; cases h
  | ok req =>
    rw [hu] at h
    simp only [jsonMarshal] at h
    split_ifs at h
    cases h
    have hg : goStr "\x7b\"result\":" = 0x7B :: goStr "\"result\":" := by decide
    simp [encodeResponse, hg]

/-- C14: a text message whose first byte is an opening brace is answered with
what `processCommand` returns for it, or with the error payload built around
its error; the response starts with an opening brace, not with a counter
prefix, no value is obtained from the counter, and the counter is
unchanged. -/
theorem dispatchText_structured (U : Unicode) (J : JSON) (c : Nat) (rest : Bytes)
    (writeOk : Bool) :
    dispatchText U J c (0x7B :: rest) =
      (match processCommand J (0x7B :: rest) with
        | .ok jsonResponse => jsonResponse
        | .error err => goStr "\x7b\"error\": \"" ++ err ++ goStr "\"\x7d",
       c) ∧
    (dispatchText U J c (0x7B :: rest)).1.head? = some 0x7B ∧
    observedCount c (0x7B :: rest) = none ∧
    loopRound U J c (.message TextMessage (0x7B :: rest)) writeOk =
      ⟨some (dispatchText U J c (0x7B :: rest)).1, c, writeOk⟩ := by
  have h1 : dispatchText U J c (0x7B :: rest) =
      (match processCommand J (0x7B :: rest) with
        | .ok jsonResponse => jsonResponse
        | .error err => goStr "\x7b\"error\": \"" ++ err ++ goStr "\"\x7d",
       c) := by
    simp only [dispatchText, List.length_cons, Nat.zero_lt_succ, List.head?_cons, and_self,
      if_true]
    cases processCommand J (0x7B :: rest) <;> rfl
  have h2 : (dispatchText U J c (0x7B :: rest)).1.head? = some 0x7B := by
    rw [h1]
    cases hp : processCommand J (0x7B :: rest) with
    | error err =>
      have hg : goStr "\x7b\"error\": \"" = 0x7B :: goStr "\"error\": \"" := by decide
      simp [hg]
    | ok out => exact processCommand_ok_head J _ out hp
  have h3 : (dispatchText U J c (0x7B :: rest)).2 = c := by rw [h1]
  refine ⟨h1, h2, by simp [observedCount], ?_⟩
  simp only [loopRound, if_true, h3]

/-- C15: when the decoder rejects a text message that starts with an opening
brace, with the message `e`, `processCommand` fails with "invalid JSON: "
followed by `e`; the round hands to `WriteMessage` the payload
`{"error": "..."}` around that description, leaves the counter alone, and
goes on to the next read exactly when the write succeeds. -/
theorem loopRound_parse_failure (U : Unicode) (J : JSON) (c : Nat) (rest e : Bytes)
    (writeOk : Bool) (h : J.unmarshal (0x7B :: rest) = .error e) :
    processCommand J (0x7B :: rest) = .error (goStr "invalid JSON: " ++ e) ∧
    loopRound U J c (.message TextMessage (0x7B :: rest)) writeOk =
      ⟨some (goStr "\x7b\"error\": \"" ++ (goStr "invalid JSON: " ++ e) ++ goStr "\"\x7d"),
        c, writeOk⟩ := by
  have hp : processCommand J (0x7B :: rest) = .error (goStr "invalid JSON: " ++ e) := by
    simp only [processCommand, h]
  refine ⟨hp, ?_⟩
  simp only [loopRound, if_true, dispatchText, List.length_cons, Nat.zero_lt_succ,
    List.head?_cons, and_self, hp]

/-- C15 at the text message `{`, on which the decoder reports the end of the
input, with a write that succeeds. -/
theorem loopRound_parse_failure_witness :
    loopRound asciiTables exampleJSON 3 (.message TextMessage (goStr "\x7b")) true =
      ⟨some (goStr "\x7b\"error\": \"invalid JSON: unexpected end of JSON input\"\x7d"),
        3, true⟩ :=
  (loopRound_parse_failure asciiTables exampleJSON 3 [] (goStr "unexpected end of JSON input")
    true rfl).2

/-- C16: a request whose method is not "GET" is answered with
"method not allowed" and the status 405, which is no 2xx status; the call
comes to nothing else, whatever the origin, the handshake and the messages
would be: `upgrader.Upgrade` with its origin check is not called, no session
runs and the counter is unchanged. -/
theorem HandleWebSocket_not_get (U : Unicode) (J : JSON) (c : Nat) (method origin : Bytes)
    (handshakeOk : Bool) (io : List (ReadResult × Bool)) (h : method ≠ goStr "GET") :
    HandleWebSocket U J c method origin handshakeOk io =
      (.httpError (goStr "method not allowed\n") 405, c) ∧
    ¬ (200 ≤ StatusMethodNotAllowed ∧ StatusMethodNotAllowed < 300) := by
  refine ⟨?_, by decide⟩
  simp only [HandleWebSocket, if_pos h, StatusMethodNotAllowed]

/-- C16 at a POST request from an allowed origin, as in `TestWebSocketRoutes`,
followed by a message that is never read. -/
theorem HandleWebSocket_not_get_witness :
    HandleWebSocket asciiTables exampleJSON 0 (goStr "POST") (goStr "http://localhost:4000") true
        [(.message TextMessage (goStr "hi"), true)] =
      (.httpError (goStr "method not allowed\n") 405, 0) :=
  (HandleWebSocket_not_get asciiTables exampleJSON 0 (goStr "POST")
    (goStr "http://localhost:4000") true [(.message TextMessage (goStr "hi"), true)]
    (by decide)).1

/-- C17, evaluated at the text message `{"a" "`: the decoder rejects it with a
description that contains a double quote, the response embeds the description
unescaped, the JSON string that starts the value of `error` ends at that quote
with `' after object key"}` left over, and the response is no object with a
member `error`; the response to the text message `{` is one. -/
theorem dispatchText_error_payload_malformed :
    exampleJSON.unmarshal (goStr "\x7b\"a\" \"") =
      .error (goStr "invalid character '\"' after object key") ∧
    dispatchText asciiTables exampleJSON 0 (goStr "\x7b\"a\" \"") =
      (goStr "\x7b\"error\": \"invalid JSON: invalid character '\"' after object key\"\x7d",
        0) ∧
    readString (goStr "\"invalid JSON: invalid character '\"' after object key\"\x7d") =
      some (goStr "invalid JSON: invalid character '", goStr "' after object key\"\x7d") ∧
    readErrorObject
        (goStr "\x7b\"error\": \"invalid JSON: invalid character '\"' after object key\"\x7d") =
      none ∧
    readErrorObject (dispatchText asciiTables exampleJSON 0 (goStr "\x7b")).1 =
      some (goStr "invalid JSON: unexpected end of JSON input") :=
  ⟨rfl, by decide, by decide, by decide, by decide⟩

/-- C18: a message that is not a text message is dropped: nothing is handed to
`WriteMessage`, the counter is unchanged, and the loop goes on to the next
read. -/
theorem loopRound_not_text (U : Unicode) (J : JSON) (c msgType : Nat) (payload : Bytes)
    (writeOk : Bool) (h : msgType ≠ TextMessage) :
    loopRound U J c (.message msgType payload) writeOk = ⟨none, c, true⟩ := by
  simp only [loopRound, if_neg h]

/-- C18 at a binary message that looks like a text command. -/
theorem loopRound_not_text_witness :
    loopRound asciiTables exampleJSON 5 (.message BinaryMessage (goStr "UPPER:hello")) false =
      ⟨none, 5, true⟩ :=
  loopRound_not_text asciiTables exampleJSON 5 BinaryMessage (goStr "UPPER:hello") false
    (by decide)

/-- C19: an empty text message is answered with an empty response and leaves
the counter alone; and for a text message that does not start with an opening
brace, a value is obtained from the counter, the counter changes, and the
response starts with "[Msg #", each exactly when the message is not empty. -/
theorem dispatchText_decorated_iff (U : Unicode) (J : JSON) (c : Nat) (writeOk : Bool) :
    dispatchText U J c [] = ([], c) ∧
    loopRound U J c (.message TextMessage []) writeOk = ⟨some [], c, writeOk⟩ ∧
    ∀ payload : Bytes, payload.head? ≠ some 0x7B →
      ((observedCount c payload).isSome = true ↔ payload ≠ []) ∧
      ((dispatchText U J c payload).2 ≠ c ↔ payload ≠ []) ∧
      (hasPrefix (dispatchText U J c payload).1 (goStr "[Msg #") = true ↔ payload ≠ []) := by
  have h0 : dispatchText U J c [] = ([], c) := by
    simp [dispatchText, hasPrefix, goStr_upper, goStr_reverse]
  refine ⟨h0, by simp only [loopRound, if_true, h0], ?_⟩
  intro payload hb
  by_cases hne : payload = []
  · subst hne
    rw [h0]
    refine ⟨by simp [observedCount], by simp, ?_⟩
    have : hasPrefix [] (goStr "[Msg #") = false := by decide
    simp [this]
  · have hd := (dispatchText_plain U J c payload hne hb).1
    have hlen : 0 < payload.length := List.length_pos.2 hne
    have ho : observedCount c payload = some (addUint64 c 1) := by
      unfold observedCount
      rw [if_neg (fun h => hb h.2), if_pos ⟨hlen, hb⟩]
    refine ⟨by simp [ho, hne], ?_, ?_⟩
    · rw [hd]
      simp [hne, addUint64_one_ne]
    · rw [hd]
      simp only [hasPrefix, List.append_assoc, List.isPrefixOf_iff_prefix, List.prefix_append,
        ne_eq, hne, not_false_eq_true]

/-- C19 at the message "x": it is decorated, the empty message is not. -/
theorem dispatchText_decorated_iff_witness :
    (hasPrefix (dispatchText asciiTables exampleJSON 4 (goStr "x")).1 (goStr "[Msg #") = true ↔
      goStr "x" ≠ []) ∧
    loopRound asciiTables exampleJSON 4 (.message TextMessage []) true = ⟨some [], 4, true⟩ :=
  ⟨((dispatchText_decorated_iff asciiTables exampleJSON 4 true).2.2 (goStr "x")
      (by decide)).2.2,
    (dispatchText_decorated_iff asciiTables exampleJSON 4 true).2.1⟩

end Ws
